import Mathlib

/-!
Verification development for the cursor-acp adapter.

This file gives a shallow embedding of the adapter's core components:

* the streaming subprocess reader (`CursorCliRunner.readPromptStream` in
  `cursor-cli-runner.ts`): chunk buffering, `/\r?\n/` line splitting,
  sequential line processing and the run's success/failure policy;
* the tool-presentation helpers of `tools.ts` (`markdownEscape`,
  `extractCursorToolPayload`, text extraction, `toolInfoFromCursorToolCall`,
  `toolUpdateFromCursorToolResult`, `isRejectedToolResult`,
  `planEntriesFromCursorTodos`);
* the event mapper `mapCursorEventToAcp` of `cursor-event-mapper.ts`
  together with its per-session tool-use cache;
* the prompt-retry orchestration of `CursorAcpAgent.prompt` and
  `CursorAcpAgent.modeToRunnerOptions` in `cursor-acp-agent.ts`;
* the utility functions `stripAnsi` and `sanitizeToolCallId` of `utils.ts`.

Dynamically-typed JavaScript values are modelled by the inductive `JsonVal`;
`JSON.parse` (a host primitive in the source) is kept abstract as a
parameter `parse : List Char → Option JsonVal`, where `none` models a parse
exception.  Strings are modelled as `String` or `List Char` as convenient.
JavaScript numbers are modelled as `Int` (the source only ever inspects
them with `typeof x === "number"` or renders them in messages).
-/

/-- Model of a JavaScript/JSON value as produced by `JSON.parse`. -/
inductive JsonVal where
  | null
  | bool (b : Bool)
  | num (n : Int)
  | str (s : String)
  | arr (xs : List JsonVal)
  | obj (fs : List (String × JsonVal))

/-- `isObject` from `utils.ts`: `typeof value === "object" && value !== null`.
Note that JavaScript arrays satisfy this predicate. -/
def jsIsObject : JsonVal → Bool
  | .arr _ => true
  | .obj _ => true
  | _ => false

/-- Property access `value[key]`; `none` models `undefined`.  Objects look up
their field list; arrays answer their numeric index keys. -/
def jsGet (v : JsonVal) (k : String) : Option JsonVal :=
  match v with
  | .obj fs => (fs.find? (fun p => p.1 == k)).map (fun p => p.2)
  | .arr xs => (xs.enum.find? (fun p => toString p.1 == k)).map (fun p => p.2)
  | _ => none

/-- `Object.keys(value)` for the two object-like shapes. -/
def jsKeys : JsonVal → List String
  | .obj fs => fs.map (fun p => p.1)
  | .arr xs => (List.range xs.length).map toString
  | _ => []

/-- `value[key]` when the result is a string, else `none`
(models `typeof value.key === "string"` guards). -/
def jsGetStr (v : JsonVal) (k : String) : Option String :=
  match jsGet v k with
  | some (.str s) => some s
  | _ => none

/-- `value[key]` when the result satisfies `isObject`, else `none`. -/
def jsGetObj (v : JsonVal) (k : String) : Option JsonVal :=
  match jsGet v k with
  | some w => if jsIsObject w then some w else none
  | none => none

/-! ### JavaScript whitespace, `trim` and `/\s+/` -/

/-- The character class `\s` of JavaScript regular expressions, which is also
the set trimmed by `String.prototype.trim`. -/
def isJsWs (c : Char) : Bool :=
  c == ' ' || c == '\t' || c == '\n' || c == '\r' ||
  c == Char.ofNat 11 || c == Char.ofNat 12 ||
  c == Char.ofNat 0xa0 || c == Char.ofNat 0x1680 ||
  (0x2000 ≤ c.toNat && c.toNat ≤ 0x200a) ||
  c == Char.ofNat 0x2028 || c == Char.ofNat 0x2029 ||
  c == Char.ofNat 0x202f || c == Char.ofNat 0x205f ||
  c == Char.ofNat 0x3000 || c == Char.ofNat 0xfeff

/-- `String.prototype.trim` on a character list. -/
def jsTrim (l : List Char) : List Char :=
  ((l.dropWhile isJsWs).reverse.dropWhile isJsWs).reverse

/-! ### The `/\r?\n/` line splitter of `readPromptStream`

`stdoutBuffer.split(/\r?\n/)` splits on every `"\n"`, additionally consuming
one `"\r"` immediately before it.  We model it as: split on `'\n'`, then
remove one trailing `'\r'` from every part except the last (the regex
consumes at most one `\r`, and only when a `\n` follows). -/

/-- Prepend a character to the first part of a split (the part being built). -/
def consHead (c : Char) : List (List Char) → List (List Char)
  | [] => [[c]]
  | l :: ls => (c :: l) :: ls

/-- Split a character list on `'\n'`; always returns at least one part. -/
def splitNL : List Char → List (List Char)
  | [] => [[]]
  | c :: rest => if c = '\n' then [] :: splitNL rest else consHead c (splitNL rest)

/-- Remove a single trailing `'\r'`, if present. -/
def chopCR (l : List Char) : List Char :=
  match l.getLast? with
  | some c => if c = '\r' then l.dropLast else l
  | none => l

/-- Apply `f` to every element except the last. -/
def mapInit (f : α → α) : List α → List α
  | [] => []
  | [x] => [x]
  | x :: y :: xs => f x :: mapInit f (y :: xs)

/-- `s.split(/\r?\n/)` on a character list. -/
def splitRN (s : List Char) : List (List Char) :=
  mapInit chopCR (splitNL s)

/-! ### Chunk buffering (`child.stdout.on("data", ...)`) -/

/-- The reader's accumulation state: completed lines enqueued so far (in
arrival order) and the unterminated tail kept in `stdoutBuffer`. -/
structure ReaderBuf where
  lines : List (List Char)
  buffer : List Char

/-- One `data` callback: append the chunk to the buffer, split on `/\r?\n/`,
pop the last part back into the buffer and enqueue the completed lines. -/
def feedChunk (st : ReaderBuf) (chunk : List Char) : ReaderBuf :=
  let parts := splitRN (st.buffer ++ chunk)
  { lines := st.lines ++ parts.dropLast, buffer := parts.getLastD [] }

/-- Feed a whole sequence of stdout chunks. -/
def feedChunks (st : ReaderBuf) : List (List Char) → ReaderBuf
  | [] => st
  | c :: cs => feedChunks (feedChunk st c) cs

/-- All lines handed to `processLine` for a given chunk sequence: the enqueued
completed lines, plus — after the process closes — the trailing buffer content
when it is not blank (`if (stdoutBuffer.trim().length > 0) processLine(...)`). -/
def readerLines (cs : List (List Char)) : List (List Char) :=
  let st := feedChunks ⟨[], []⟩ cs
  st.lines ++ (if jsTrim st.buffer = [] then [] else [st.buffer])

/-! ### Sequential line processing (`processLine` / the `processing` chain) -/

/-- `processLine`, iterated over the queued lines in order.  A blank line is
skipped; a line that fails to `JSON.parse` rejects the whole chain (the error
carries the offending line); otherwise the parsed event is recorded and the
asynchronous per-record handler is awaited before the next line is processed.
The handler is modelled as a state transformer `h`: invocation `N+1` receives
the state produced by the completed invocation `N`, which is exactly the
sequential-queueing guarantee of the `processing` promise chain. -/
def processQueue (parse : List Char → Option JsonVal) (h : σ → JsonVal → σ) (s : σ) :
    List (List Char) → Except (List Char) (σ × List JsonVal)
  | [] => .ok (s, [])
  | l :: ls =>
    if jsTrim l = [] then processQueue parse h s ls
    else
      match parse l with
      | none => .error l
      | some e =>
        match processQueue parse h (h s e) ls with
        | .ok (s2, es) => .ok (s2, e :: es)
        | .error bad => .error bad

/-- Parse every record of a list; `none` if any fails. -/
def parseAll (parse : List Char → Option JsonVal) : List (List Char) → Option (List JsonVal)
  | [] => some []
  | r :: rs =>
    match parse r, parseAll parse rs with
    | some e, some es => some (e :: es)
    | _, _ => none

/-- Concatenation of newline-terminated records. -/
def joinNL (rs : List (List Char)) : List Char :=
  (rs.map (fun r => r ++ ['\n'])).flatten

/-! ### `stripAnsi` from `utils.ts` -/

/-- After `ESC [`, skip up to and including the first ASCII letter. -/
def dropCsi : List Char → List Char
  | [] => []
  | c :: rest =>
    if (65 ≤ c.toNat && c.toNat ≤ 90) || (97 ≤ c.toNat && c.toNat ≤ 122) then rest
    else dropCsi rest

/-- After `ESC ]`, skip up to and including a BEL terminator or an
`ESC \`-pair terminator; when `ESC` is not followed by `\`, scanning
continues from the character after the `ESC`. -/
def dropOsc : List Char → List Char
  | [] => []
  | c :: rest =>
    if c = Char.ofNat 7 then rest
    else if c = Char.ofNat 27 ∧ rest.head? = some '\\' then rest.tail
    else dropOsc rest

theorem dropCsi_length_le (l : List Char) : (dropCsi l).length ≤ l.length := by
  induction l with
  | nil => simp [dropCsi]
  | cons c rest ih =>
    simp only [dropCsi]
    split
    · simp
    · exact Nat.le_trans ih (Nat.le_succ _)

theorem dropOsc_length_le (l : List Char) : (dropOsc l).length ≤ l.length := by
  induction l with
  | nil => simp [dropOsc]
  | cons c rest ih =>
    simp only [dropOsc]
    split
    · simp
    · split
      · have : rest.tail.length = rest.length - 1 := List.length_tail rest
        simp only [List.length_cons]
        omega
      · exact Nat.le_trans ih (Nat.le_succ _)

/-- The scanning loop of `stripAnsi`, with explicit fuel (the loop consumes
at least one character per iteration, so fuel equal to the input length is
always sufficient; the fuel-exhausted case is unreachable). -/
def stripAnsiFuel : Nat → List Char → List Char
  | 0, _ => []
  | _ + 1, [] => []
  | fuel + 1, c :: rest =>
    if c = Char.ofNat 27 then
      if rest.head? = some '[' then stripAnsiFuel fuel (dropCsi rest.tail)
      else if rest.head? = some ']' then stripAnsiFuel fuel (dropOsc rest.tail)
      else stripAnsiFuel fuel rest
    else c :: stripAnsiFuel fuel rest

/-- `stripAnsi` from `utils.ts`: remove CSI (`ESC [ ... letter`) and OSC
(`ESC ] ... BEL` / `ESC ] ... ESC \`) sequences; a lone `ESC` is dropped. -/
def stripAnsi (l : List Char) : List Char :=
  stripAnsiFuel l.length l

/-! ### The complete reader run (`readPromptStream`) -/

/-- `event.type === "result"`. -/
def isResultEvent (j : JsonVal) : Bool :=
  jsGetStr j "type" == some "result"

/-- The two ways a reader run can reject: a line that fails `JSON.parse`
(the error message carries the line), or the subprocess closing without a
`result`-type record (the error message carries the exit code and the
ANSI-stripped, trimmed stderr text). -/
inductive RunFailure where
  | parseError (line : List Char)
  | noResultEvent (exitCode : Int) (cleanedStderr : List Char)

/-- The value `readPromptStream` resolves with. -/
structure RunPromptResult (σ : Type u) where
  handlerState : σ
  events : List JsonVal
  resultEvent : Option JsonVal
  stderrText : List Char
  exitCode : Int

/-- The full reader run of `CursorCliRunner.readPromptStream`, as a function
of the stdout chunk sequence, the collected stderr text and the exit code
observed at `close` (the source's `code ?? 1`).  All enqueued lines are
processed in order, the trailing buffer is flushed as a final line when not
blank, and the run resolves only if a `result`-type record was processed —
`resultEvent` being the last such record. -/
def readPromptStream (parse : List Char → Option JsonVal) (h : σ → JsonVal → σ) (s0 : σ)
    (cs : List (List Char)) (stderrText : List Char) (exitCode : Int) :
    Except RunFailure (RunPromptResult σ) :=
  match processQueue parse h s0 (readerLines cs) with
  | .error l => .error (.parseError l)
  | .ok (s1, evs) =>
    match (evs.filter isResultEvent).getLast? with
    | none => .error (.noResultEvent exitCode (jsTrim (stripAnsi stderrText)))
    | some re => .ok ⟨s1, evs, some re, stderrText, exitCode⟩

/-- Observer: the first non-blank queued line that fails to parse, if any. -/
def firstBadLine (parse : List Char → Option JsonVal) : List (List Char) → Option (List Char)
  | [] => none
  | l :: ls =>
    if jsTrim l = [] then firstBadLine parse ls
    else
      match parse l with
      | none => some l
      | some _ => firstBadLine parse ls

/-- Observer: the parsed records of the non-blank queued lines, in order
(meaningful when no line fails to parse). -/
def goodEvents (parse : List Char → Option JsonVal) : List (List Char) → List JsonVal
  | [] => []
  | l :: ls =>
    if jsTrim l = [] then goodEvents parse ls
    else
      match parse l with
      | none => goodEvents parse ls
      | some e => e :: goodEvents parse ls

/-! ### `JSON.stringify(value, null, 2)` (used by the generic fallback dump) -/

def hexDigit (n : Nat) : Char :=
  if n < 10 then Char.ofNat (48 + n) else Char.ofNat (87 + n)

/-- JSON string escaping as performed by `JSON.stringify`. -/
def jsonEscapeChar (c : Char) : List Char :=
  if c = Char.ofNat 34 then ['\\', Char.ofNat 34]
  else if c = '\\' then ['\\', '\\']
  else if c = '\n' then ['\\', 'n']
  else if c = '\r' then ['\\', 'r']
  else if c = '\t' then ['\\', 't']
  else if c = Char.ofNat 8 then ['\\', 'b']
  else if c = Char.ofNat 12 then ['\\', 'f']
  else if c.toNat < 32 then
    ['\\', 'u', hexDigit (c.toNat / 4096 % 16), hexDigit (c.toNat / 256 % 16),
     hexDigit (c.toNat / 16 % 16), hexDigit (c.toNat % 16)]
  else [c]

def jsonQuote (s : String) : String :=
  String.mk (Char.ofNat 34 :: (s.toList.flatMap jsonEscapeChar) ++ [Char.ofNat 34])

def indentSpaces (n : Nat) : String :=
  String.mk (List.replicate n ' ')

mutual

/-- `JSON.stringify(v, null, 2)`, called with the current indentation level. -/
def jsonStringify (ind : Nat) : JsonVal → String
  | .null => "null"
  | .bool b => cond b "true" "false"
  | .num n => toString n
  | .str s => jsonQuote s
  | .arr [] => "[]"
  | .arr (x :: xs) =>
    "[\n" ++ jsonArrItems (ind + 2) (x :: xs) ++ "\n" ++ indentSpaces ind ++ "]"
  | .obj [] => "\x7b\x7d"
  | .obj (f :: fs) =>
    "\x7b\n" ++ jsonObjItems (ind + 2) (f :: fs) ++ "\n" ++ indentSpaces ind ++ "\x7d"

def jsonArrItems (ind : Nat) : List JsonVal → String
  | [] => ""
  | [x] => indentSpaces ind ++ jsonStringify ind x
  | x :: y :: xs =>
    indentSpaces ind ++ jsonStringify ind x ++ ",\n" ++ jsonArrItems ind (y :: xs)

def jsonObjItems (ind : Nat) : List (String × JsonVal) → String
  | [] => ""
  | [f] => indentSpaces ind ++ jsonQuote f.1 ++ ": " ++ jsonStringify ind f.2
  | f :: g :: fs =>
    indentSpaces ind ++ jsonQuote f.1 ++ ": " ++ jsonStringify ind f.2 ++ ",\n" ++
      jsonObjItems ind (g :: fs)

end

/-! ### `tools.ts` -/

/-- The backtick character. -/
def bq : Char := Char.ofNat 96

/-- JavaScript LineTerminator characters (after which the multiline anchor
`^` matches). -/
def lineTerm (c : Char) : Bool :=
  c == '\n' || c == '\r' || c == Char.ofNat 0x2028 || c == Char.ofNat 0x2029

/-- Split at every LineTerminator; the returned segments start exactly at the
positions where `^` matches under the `m` flag. -/
def splitLineStarts : List Char → List (List Char)
  | [] => [[]]
  | c :: rest =>
    if lineTerm c then [] :: splitLineStarts rest else consHead c (splitLineStarts rest)

/-- The matches of `/^```+/gm`: for each line start, the length of the leading
backtick run when it is at least 3. -/
def lineStartTickRuns (text : List Char) : List Nat :=
  ((splitLineStarts text).map (fun l => (l.takeWhile (fun c => c == bq)).length)).filter
    (fun n => 3 ≤ n)

/-- One iteration of `while (m.length >= fence.length) fence += "`"`,
expressed on fence lengths. -/
def fenceGrow (fence m : Nat) : Nat :=
  if fence ≤ m then m + 1 else fence

/-- `markdownEscape` from `tools.ts` on a character list: wrap the text in a
backtick fence, growing the fence past every line-leading run of three or
more backticks found by `/^```+/gm`. -/
def markdownEscapeL (text : List Char) : List Char :=
  let fenceLen := (lineStartTickRuns text).foldl fenceGrow 3
  let fence := List.replicate fenceLen bq
  fence ++ '\n' :: (text ++ (if text.getLast? = some '\n' then [] else ['\n']) ++ fence)

/-- `markdownEscape` from `tools.ts`. -/
def markdownEscape (text : String) : String :=
  String.mk (markdownEscapeL text.toList)

/-- Observer for the spec's reading of the fence rule: the length of the
longest run of backticks occurring *anywhere* in the text. -/
def maxRunAux : List Char → Nat → Nat → Nat
  | [], cur, best => max cur best
  | c :: rest, cur, best =>
    if c == bq then maxRunAux rest (cur + 1) best
    else maxRunAux rest 0 (max cur best)

/-- The longest backtick run anywhere in the text. -/
def maxBacktickRun (cs : List Char) : Nat :=
  maxRunAux cs 0 0

/-- `CursorToolPayload` from `tools.ts`. -/
structure CursorToolPayload where
  toolName : String
  args : JsonVal
  result : Option JsonVal
  rawKey : String

/-- `extractCursorToolPayload`: unwrap the single-key
`{toolName: {args, result?}}` object carried by `tool_call` records. -/
def extractCursorToolPayload (toolCall : Option JsonVal) : Option CursorToolPayload :=
  match toolCall with
  | none => none
  | some tc =>
    if jsIsObject tc then
      match jsKeys tc with
      | [] => none
      | rawKey :: _ =>
        match jsGet tc rawKey with
        | some node =>
          if jsIsObject node then
            some { toolName := rawKey,
                   args := (jsGetObj node "args").getD (.obj []),
                   result := jsGetObj node "result",
                   rawKey := rawKey }
          else none
        | none => none
    else none

/-- `baseToolName`: strip a trailing `"ToolCall"` suffix. -/
def baseToolName (name : String) : String :=
  if List.isSuffixOf "ToolCall".toList name.toList then
    String.mk (name.toList.take (name.toList.length - 8))
  else name

/-- The per-array-entry extraction inside `extractText`: a string entry is
kept as is; an object entry contributes its `text` or `content` string. -/
def extractTextCandidate (entry : JsonVal) : Option String :=
  match entry with
  | .str s => some s
  | _ =>
    if jsIsObject entry then
      match jsGetStr entry "text" with
      | some t => some t
      | none => jsGetStr entry "content"
    else none

/-- The first of the given properties holding a non-empty string. -/
def firstNonemptyStrProp (v : JsonVal) : List String → Option String
  | [] => none
  | k :: ks =>
    match jsGetStr v k with
    | some s => if s.length > 0 then some s else firstNonemptyStrProp v ks
    | none => firstNonemptyStrProp v ks

/-- The trailing object branch of `extractText`: the first non-empty string
among the `text`, `content`, `message`, `output` properties. -/
def objTextProps (v : JsonVal) : Option String :=
  if jsIsObject v then firstNonemptyStrProp v ["text", "content", "message", "output"]
  else none

/-- `parts.join("\n")`. -/
def joinParts : List String → String
  | [] => ""
  | [p] => p
  | p :: q :: ps => p ++ "\n" ++ joinParts (q :: ps)

/-- `extractText` from `tools.ts`; `none` models a `null` result.  A
non-empty string is returned as is; an array contributes the non-empty
string entries joined with newlines; anything else falls through to the
object-property chain (which yields `none` for non-objects, as in the
source where `typeof value !== "object"` fails `isObject`). -/
def extractText : Option JsonVal → Option String
  | none => none
  | some (.str s) => if s.length > 0 then some s else none
  | some (.arr xs) =>
    let parts := (xs.filterMap extractTextCandidate).filter (fun s => s.length > 0)
    if parts.length > 0 then some (joinParts parts)
    else objTextProps (.arr xs)
  | some .null => objTextProps .null
  | some (.bool b) => objTextProps (.bool b)
  | some (.num n) => objTextProps (.num n)
  | some (.obj fs) => objTextProps (.obj fs)

/-- The key-list walk at the end of `extractTextFromRecord`. -/
def firstKeyExtract (record : JsonVal) : List String → Option String
  | [] => none
  | k :: ks =>
    match extractText (jsGet record k) with
    | some t => some t
    | none => firstKeyExtract record ks

/-- `extractTextFromRecord` from `tools.ts`: interleaved output first, then
stdout/stderr (concatenated with a separating newline when both are present),
then a fixed list of candidate fields. -/
def extractTextFromRecord (record : JsonVal) : Option String :=
  match extractText (jsGet record "interleavedOutput") with
  | some t => some t
  | none =>
    match extractText (jsGet record "stdout"), extractText (jsGet record "stderr") with
    | some o, some e => some (o ++ (if o.toList.getLast? = some '\n' then "" else "\n") ++ e)
    | some o, none => some o
    | none, some e => some e
    | none, none =>
      firstKeyExtract record
        ["content", "text", "output", "result", "message", "lines", "fileOutput",
         "fileOutputPath"]

/-- A tool-call content item: an opaque text block or a structured diff. -/
inductive ToolCallContent where
  | content (text : String)
  | diff (path : String) (oldText : String) (newText : String)

/-- `textContent`: a single fenced text block. -/
def textContent (text : String) : List ToolCallContent :=
  [.content (markdownEscape text)]

/-- `extractToolResultOutputText` from `tools.ts`: walk the `success`,
`error`, `rejected` sub-objects, then the result itself. -/
def extractToolResultOutputText (result : Option JsonVal) : Option String :=
  match result with
  | none => none
  | some r =>
    let fromSuccess := match jsGetObj r "success" with
      | some s => extractTextFromRecord s
      | none => none
    let fromError := match jsGetObj r "error" with
      | some e => extractTextFromRecord e
      | none => none
    let fromRejected := match jsGetObj r "rejected" with
      | some rej => extractTextFromRecord rej
      | none => none
    fromSuccess.or (fromError.or (fromRejected.or (extractTextFromRecord r)))

/-- `{path, line?}` location. -/
structure ToolCallLocation where
  path : String
  line : Option Nat

/-- `ToolInfo` from `tools.ts` (`locations = none` models the field being
absent from the returned object). -/
structure ToolInfo where
  title : String
  kind : String
  content : List ToolCallContent
  locations : Option (List ToolCallLocation)

/-- Escape backticks in a shell command: `command.split("`").join("\\`")`. -/
def escapeBackticks (s : String) : String :=
  String.mk (s.toList.flatMap (fun c => if c = bq then ['\\', bq] else [c]))

/-- The `{title, content}` pair returned by `describeShellCommand`. -/
structure ShellDescription where
  title : String
  content : List ToolCallContent

/-- `describeShellCommand` from `tools.ts`. -/
def describeShellCommand (args : JsonVal) : ShellDescription :=
  let command := (jsGetStr args "command").getD ""
  let description := (jsGetStr args "description").getD ""
  { title := if command ≠ "" then
      String.mk (bq :: (escapeBackticks command).toList ++ [bq])
    else "Shell",
    content := if description ≠ "" then [.content description] else [] }

/-- `toolInfoFromCursorToolCall` from `tools.ts`: the tool-start
classification of a tool invocation by normalized name. -/
def toolInfoFromCursorToolCall (toolNameRaw : String) (args : JsonVal) : ToolInfo :=
  let toolName := baseToolName toolNameRaw
  if toolName = "shell" then
    let shell := describeShellCommand args
    { title := shell.title, kind := "execute", content := shell.content, locations := none }
  else if toolName = "read" then
    let path := (jsGetStr args "path").getD ""
    { title := if path ≠ "" then "Read " ++ path else "Read", kind := "read", content := [],
      locations := some (if path ≠ "" then [⟨path, some 0⟩] else []) }
  else if toolName = "edit" then
    let path := (jsGetStr args "path").getD ""
    { title := if path ≠ "" then "Edit " ++ path else "Edit", kind := "edit", content := [],
      locations := some (if path ≠ "" then [⟨path, none⟩] else []) }
  else if toolName = "write" then
    let path := (jsGetStr args "path").getD ""
    { title := if path ≠ "" then "Write " ++ path else "Write", kind := "edit", content := [],
      locations := some (if path ≠ "" then [⟨path, none⟩] else []) }
  else if toolName = "updateTodos" then
    { title := "Update TODOs", kind := "think", content := [], locations := none }
  else
    { title := if toolName ≠ "" then toolName else if toolNameRaw ≠ "" then toolNameRaw else "Tool",
      kind := "other", content := [], locations := none }

/-- `maybeDiffContentFromEditResult` from `tools.ts`. -/
def maybeDiffContentFromEditResult (args : JsonVal) (result : Option JsonVal) :
    List ToolCallContent :=
  match result with
  | none => []
  | some r =>
    match jsGetObj r "success" with
    | none => []
    | some success =>
      let path := jsGetStr args "path"
      let before := jsGetStr success "beforeFullFileContent"
      let after := jsGetStr success "afterFullFileContent"
      let diffString := jsGetStr success "diffString"
      match path, before, after with
      | some p, some b, some a =>
        if p ≠ "" then [.diff p b a]
        else match diffString with
          | some d => if d ≠ "" then [.content (markdownEscape d)] else []
          | none => []
      | _, _, _ =>
        match diffString with
        | some d => if d ≠ "" then [.content (markdownEscape d)] else []
        | none => []

/-- `genericResultContent` from `tools.ts`. -/
def genericResultContent (result : Option JsonVal) : List ToolCallContent :=
  match result with
  | none => []
  | some r =>
    let fromSuccess := match jsGetObj r "success" with
      | some s => extractTextFromRecord s
      | none => none
    match fromSuccess with
    | some t => textContent t
    | none =>
      let fromError := match jsGetObj r "error" with
        | some e => extractTextFromRecord e
        | none => none
      match fromError with
      | some t => textContent t
      | none =>
        match jsGetObj r "rejected" with
        | some rejected =>
          let command := (jsGetStr rejected "command").getD "tool"
          [.content (markdownEscape (match extractTextFromRecord rejected with
            | some reason => "Rejected: " ++ command ++ "\n" ++ reason
            | none => "Rejected: " ++ command))]
        | none =>
          match extractTextFromRecord r with
          | some t => textContent t
          | none => [.content (markdownEscape (jsonStringify 0 r))]

/-- The `{content?, locations?}` object returned by
`toolUpdateFromCursorToolResult`. -/
structure ToolUpdate where
  content : Option (List ToolCallContent)
  locations : Option (List ToolCallLocation)

/-- `toolUpdateFromCursorToolResult` from `tools.ts`. -/
def toolUpdateFromCursorToolResult (toolNameRaw : String) (args : JsonVal)
    (result : Option JsonVal) : ToolUpdate :=
  let toolName := baseToolName toolNameRaw
  if toolName = "shell" then
    { content := some (textContent
        ((extractToolResultOutputText result).getD "Command completed with no output.")),
      locations := none }
  else if toolName = "edit" then
    { content := some (maybeDiffContentFromEditResult args result),
      locations := match jsGetStr args "path" with
        | some p => if p ≠ "" then some [⟨p, none⟩] else none
        | none => none }
  else
    { content := some (genericResultContent result), locations := none }

/-- `isRejectedToolResult` from `tools.ts`: a result is rejected iff it is an
object containing a nested `rejected` object. -/
def isRejectedToolResult (result : Option JsonVal) : Bool :=
  match result with
  | none => false
  | some r =>
    jsIsObject r &&
      (match jsGet r "rejected" with
       | some v => jsIsObject v
       | none => false)

/-- A plan entry `{content, status, priority}`. -/
structure PlanEntry where
  content : String
  status : String
  priority : String

/-- `mapTodoStatus` from `tools.ts`. -/
def mapTodoStatus (status : String) : String :=
  if status = "TODO_STATUS_COMPLETED" ∨ status = "completed" then "completed"
  else if status = "TODO_STATUS_IN_PROGRESS" ∨ status = "in_progress" then "in_progress"
  else "pending"

/-- `planEntriesFromCursorTodos` from `tools.ts`. -/
def planEntriesFromCursorTodos (result : Option JsonVal) : List PlanEntry :=
  let success := match result with
    | some r => jsGetObj r "success"
    | none => none
  let todos := match success with
    | some s =>
      match jsGet s "todos" with
      | some (.arr xs) => xs
      | _ => []
    | none => []
  (todos.filter jsIsObject).map (fun todo =>
    { content := (jsGetStr todo "content").getD "Untitled task",
      status := mapTodoStatus ((jsGetStr todo "status").getD ""),
      priority := "medium" })

/-! ### `sanitizeToolCallId` from `utils.ts` -/

/-- The scan behind `replace(/\s+/g, "_")`: `inRun` records whether the
previous character belonged to a whitespace run (whose underscore was
already emitted). -/
def replaceWsRunsAux (inRun : Bool) : List Char → List Char
  | [] => []
  | c :: rest =>
    if isJsWs c then
      (if inRun then [] else ['_']) ++ replaceWsRunsAux true rest
    else c :: replaceWsRunsAux false rest

/-- `trimmed.replace(/\s+/g, "_")`: collapse every whitespace run into a
single underscore. -/
def replaceWsRuns (l : List Char) : List Char :=
  replaceWsRunsAux false l

/-- `sanitizeToolCallId` from `utils.ts`. -/
def sanitizeToolCallId (raw : List Char) : List Char :=
  let trimmed := jsTrim raw
  if trimmed = [] then "tool-call".toList
  else replaceWsRuns trimmed

/-! ### `cursor-event-mapper.ts` -/

/-- `CachedToolUse`. -/
structure CachedToolUse where
  toolCallId : List Char
  payload : CursorToolPayload

/-- The per-session `Record<string, CachedToolUse>`, as an association list
with map semantics (insert overwrites, delete removes). -/
def ToolUseCache := List (List Char × CachedToolUse)

def cacheLookup (cache : ToolUseCache) (k : List Char) : Option CachedToolUse :=
  (List.find? (fun p => p.1 == k) cache).map (fun p => p.2)

def cacheErase (cache : ToolUseCache) (k : List Char) : ToolUseCache :=
  List.filter (fun p => !(p.1 == k)) cache

def cacheInsert (cache : ToolUseCache) (k : List Char) (v : CachedToolUse) : ToolUseCache :=
  (k, v) :: cacheErase cache k

/-- `RejectedToolCall`. -/
structure RejectedToolCall where
  toolCallId : List Char
  title : String
  rawInput : JsonVal

/-- The `rawOutput` field of a `tool_call_update`: a string for shell tools,
the raw result value (possibly absent) otherwise. -/
inductive RawOutput where
  | text (s : String)
  | json (v : Option JsonVal)

/-- The session-update notifications the mapper can emit.  `metaToolName`,
`metaRawResult` and `metaToolResponse` model the `_meta.cursorCli.toolName`,
`_meta.cursorCli.rawResult` and `_meta.claudeCode.toolResponse` text of the
source's notification objects. -/
inductive SessionUpdate where
  | agentThoughtChunk (text : String)
  | agentMessageChunk (text : String)
  | toolCall (toolCallId : List Char) (status : String) (rawInput : JsonVal)
      (metaToolName : String) (title : String) (kind : String)
      (content : List ToolCallContent) (locations : Option (List ToolCallLocation))
  | toolCallUpdate (toolCallId : List Char) (status : String) (rawOutput : RawOutput)
      (metaToolName : String) (metaRawResult : Option JsonVal)
      (metaToolResponse : Option String)
      (content : Option (List ToolCallContent)) (locations : Option (List ToolCallLocation))
  | plan (entries : List PlanEntry)

/-- A `SessionNotification`. -/
structure SessionNotification where
  sessionId : String
  update : SessionUpdate

/-- `MappingResult`. -/
structure MappingResult where
  notifications : List SessionNotification
  backendSessionId : Option String := none
  currentModeId : Option String := none
  rejectedToolCall : Option RejectedToolCall := none

/-- `formatShellToolResponse`: the `success` sub-object, if any. -/
def shellSuccessObj (result : Option JsonVal) : Option JsonVal :=
  match result with
  | some r => jsGetObj r "success"
  | none => none

/-- The numeric `exitCode` of the `success` sub-object, if any. -/
def shellExitCode (result : Option JsonVal) : Option Int :=
  match shellSuccessObj result with
  | some s =>
    match jsGet s "exitCode" with
    | some (.num n) => some n
    | _ => none
  | none => none

/-- The non-empty `signal` string of the `success` sub-object, if any. -/
def shellSignal (result : Option JsonVal) : Option String :=
  match shellSuccessObj result with
  | some s =>
    match jsGetStr s "signal" with
    | some sg => if sg.length > 0 then some sg else none
    | none => none
  | none => none

/-- `formatShellToolResponse` from `cursor-event-mapper.ts`: prepend an
exit-code/signal summary to the extracted output text when present.  The
source builds the prefix with two conditional appends; unrolling the four
cases: no exit code and no signal leaves the text bare, an exit code alone
prepends `Exited with code N.`, a signal alone prepends `` Signal `S`. ``,
and both prepend `` Exited with code N. Signal `S`. ``, always followed by
`Final output:` and a blank line when any prefix is present. -/
def formatShellToolResponse (result : Option JsonVal) (outputText : Option String) : String :=
  let text := outputText.getD "Command completed with no output."
  match shellExitCode result, shellSignal result with
  | none, none => text
  | some n, none =>
    "Exited with code " ++ toString n ++ "." ++ "Final output:\n\n" ++ text
  | none, some sg =>
    "Signal `" ++ sg ++ "`. " ++ "Final output:\n\n" ++ text
  | some n, some sg =>
    "Exited with code " ++ toString n ++ "." ++ " " ++ "Signal `" ++ sg ++ "`. " ++
      "Final output:\n\n" ++ text

/-- `assistantTextChunks` from `cursor-event-mapper.ts`. -/
def assistantTextChunks (ev : JsonVal) : List String :=
  match jsGet ev "message" with
  | some message =>
    if jsIsObject message then
      match jsGet message "content" with
      | some (.arr items) =>
        items.filterMap (fun item =>
          if jsIsObject item then
            match jsGetStr item "type", jsGetStr item "text" with
            | some "text", some t => some t
            | _, _ => none
          else none)
      | _ => []
    else []
  | none => []

/-- The `toolCallId` used by the mapper for a `tool_call` event:
`sanitizeToolCallId(rawCallId || "tool-call")` where `rawCallId` is the
event's `call_id` when it is a string, else `""`. -/
def mapperToolCallId (ev : JsonVal) : List Char :=
  let rawCallId := match jsGetStr ev "call_id" with
    | some s => s.toList
    | none => []
  sanitizeToolCallId (if rawCallId = [] then "tool-call".toList else rawCallId)

/-- The `subtype === "started"` branch of the mapper's `tool_call` case:
classify the tool and emit one pending `tool_call` notification. -/
def startedMapping (sessionId : String) (toolCallId : List Char)
    (payload : CursorToolPayload) : MappingResult :=
  let info := toolInfoFromCursorToolCall payload.toolName payload.args
  { notifications := [⟨sessionId,
      .toolCall toolCallId "pending" payload.args payload.toolName
        info.title info.kind info.content info.locations⟩] }

/-- The `subtype === "completed"` branch of the mapper's `tool_call` case,
given the cached entry (or the synthetic one) and the completion result. -/
def completedMapping (sessionId : String) (toolCallId : List Char)
    (cached : CachedToolUse) (result : Option JsonVal) : MappingResult :=
  let infoUpdate :=
    toolUpdateFromCursorToolResult cached.payload.toolName cached.payload.args result
  let status := if isRejectedToolResult result then "failed" else "completed"
  let isShellTool := cached.payload.toolName = "shellToolCall"
  let shellOutputText := if isShellTool then extractToolResultOutputText result else none
  let shellToolResponseText :=
    if isShellTool then some (formatShellToolResponse result shellOutputText) else none
  let isTodoUpdate := cached.payload.toolName = "updateTodosToolCall"
  let updateNotif : SessionNotification :=
    ⟨sessionId, .toolCallUpdate toolCallId status
      (if isShellTool then
        .text (shellOutputText.getD "Command completed with no output.")
      else .json result)
      cached.payload.toolName
      (if isShellTool then result else none)
      (match shellToolResponseText with
       | some t => if t.length > 0 then some t else none
       | none => none)
      infoUpdate.content infoUpdate.locations⟩
  { notifications := updateNotif ::
      (if isTodoUpdate then [⟨sessionId, .plan (planEntriesFromCursorTodos result)⟩] else []),
    rejectedToolCall :=
      if isRejectedToolResult result then
        some ⟨toolCallId,
          (toolInfoFromCursorToolCall cached.payload.toolName cached.payload.args).title,
          cached.payload.args⟩
      else none }

/-- `mapCursorEventToAcp` from `cursor-event-mapper.ts`, with the mutable
`context.toolUseCache` threaded explicitly. -/
def mapCursorEventToAcp (sessionId : String) (ev : JsonVal) (cache : ToolUseCache) :
    MappingResult × ToolUseCache :=
  if jsGetStr ev "type" = some "system" ∧ jsGetStr ev "subtype" = some "init" then
    let backendSessionId := match jsGetStr ev "session_id" with
      | some s => if s.length > 0 then some s else none
      | none => none
    let permissionMode := match jsGetStr ev "permissionMode" with
      | some s => if s.length > 0 then some s else none
      | none => none
    ({ notifications := [], backendSessionId := backendSessionId,
       currentModeId := permissionMode }, cache)
  else if jsGetStr ev "type" = some "thinking" ∧ jsGetStr ev "subtype" = some "delta" then
    let text := (jsGetStr ev "text").getD ""
    ({ notifications :=
        if text.length > 0 then [⟨sessionId, .agentThoughtChunk text⟩] else [] }, cache)
  else if jsGetStr ev "type" = some "assistant" then
    ({ notifications :=
        (assistantTextChunks ev).map (fun t => ⟨sessionId, .agentMessageChunk t⟩) }, cache)
  else if jsGetStr ev "type" = some "tool_call" then
    let toolCallId := mapperToolCallId ev
    match extractCursorToolPayload (jsGet ev "tool_call") with
    | none => ({ notifications := [] }, cache)
    | some payload =>
      if jsGetStr ev "subtype" = some "started" then
        (startedMapping sessionId toolCallId payload,
         cacheInsert cache toolCallId ⟨toolCallId, payload⟩)
      else if jsGetStr ev "subtype" = some "completed" then
        let cached := (cacheLookup cache toolCallId).getD ⟨toolCallId, payload⟩
        (completedMapping sessionId toolCallId cached payload.result,
         cacheErase cache toolCallId)
      else ({ notifications := [] }, cache)
  else ({ notifications := [] }, cache)

/-- Observer: the `toolCallId` carried by a notification, when it has one. -/
def notifToolCallId : SessionUpdate → Option (List Char)
  | .toolCall toolCallId _ _ _ _ _ _ _ => some toolCallId
  | .toolCallUpdate toolCallId _ _ _ _ _ _ _ => some toolCallId
  | _ => none

/-- Observer: the status of a `tool_call_update` notification. -/
def updateStatus : SessionUpdate → Option String
  | .toolCallUpdate _ status _ _ _ _ _ _ => some status
  | _ => none

/-- Observer: the `rawOutput` of a `tool_call_update` notification. -/
def updateRawOutput : SessionUpdate → Option RawOutput
  | .toolCallUpdate _ _ rawOutput _ _ _ _ _ => some rawOutput
  | _ => none

/-- Observer: the `_meta.claudeCode.toolResponse` text of a
`tool_call_update` notification. -/
def updateMetaToolResponse : SessionUpdate → Option String
  | .toolCallUpdate _ _ _ _ _ metaToolResponse _ _ => metaToolResponse
  | _ => none

/-! ### `cursor-acp-agent.ts`: modes and the prompt-retry orchestration -/

/-- `SUPPORTED_MODE_IDS` from `settings.ts`. -/
inductive SessionModeId where
  | default
  | acceptEdits
  | plan
  | ask
  | bypassPermissions
deriving DecidableEq

/-- The `{modeId?, force}` runner options derived from the session mode. -/
structure RunnerOptions where
  modeId : Option String
  force : Bool
deriving DecidableEq

/-- `CursorAcpAgent.modeToRunnerOptions`: a forced retry always passes the
force flag and no mode flag; otherwise plan/ask pass a mode flag,
bypassPermissions passes the force flag, and default/acceptEdits pass
neither. -/
def modeToRunnerOptions (modeId : SessionModeId) (forceRetry : Bool) : RunnerOptions :=
  if forceRetry then ⟨none, true⟩
  else
    match modeId with
    | .plan => ⟨some "plan", false⟩
    | .ask => ⟨some "ask", false⟩
    | .bypassPermissions => ⟨none, true⟩
    | .acceptEdits => ⟨none, false⟩
    | .default => ⟨none, false⟩

/-- The three-way outcome of `requestPermissionToRetry`. -/
inductive PermissionDecision where
  | allow_once
  | allow_always
  | reject
deriving DecidableEq

/-- Stop reasons produced by the prompt flow. -/
inductive StopReason where
  | end_turn
  | max_turn_requests
  | cancelled
deriving DecidableEq

/-- `PromptAttemptResult` from `cursor-acp-agent.ts`. -/
structure PromptAttemptResult where
  stopReason : StopReason
  rejectedToolCalls : List RejectedToolCall

/-- The oracle inputs of one run of the retry protocol in
`CursorAcpAgent.prompt` (lines 349-386): the first attempt's outcome, the
session mode at inspection time, the value of `session.cancelled` observed
right after the first attempt and right after the permission decision
resolves, the decision itself, and the second attempt's outcome (consulted
only if a retry runs). -/
structure PromptFlowInput where
  modeId : SessionModeId
  firstAttempt : PromptAttemptResult
  cancelledAfterFirst : Bool
  decision : PermissionDecision
  cancelledAfterDecision : Bool
  secondAttempt : PromptAttemptResult

/-- Observable trace of the retry protocol: the returned stop reason, the
runner options of the retry attempt when one is started (`none` = no retry
ran), whether a `current_mode_update` notification was emitted, and the
session's mode afterwards. -/
structure PromptFlowTrace where
  stopReason : StopReason
  retryRunnerOptions : Option RunnerOptions
  modeChangeEmitted : Bool
  finalModeId : SessionModeId
deriving DecidableEq

/-- The retry orchestration of `CursorAcpAgent.prompt` after the first
attempt settles: short-circuit on cancellation; when the first attempt ends
normally with a rejected tool call in a confirmation-soliciting mode,
request a permission decision; re-check cancellation; switch to
bypassPermissions (emitting a mode change) on allow-always; run exactly one
forced retry on allow-once/allow-always and return its outcome; otherwise
return the first attempt's outcome. -/
def promptFlow (inp : PromptFlowInput) : PromptFlowTrace :=
  if inp.firstAttempt.stopReason = .cancelled ∨ inp.cancelledAfterFirst = true then
    ⟨.cancelled, none, false, inp.modeId⟩
  else if inp.firstAttempt.stopReason = .end_turn ∧
      (inp.modeId = .default ∨ inp.modeId = .acceptEdits) ∧
      0 < inp.firstAttempt.rejectedToolCalls.length then
    if inp.cancelledAfterDecision = true then ⟨.cancelled, none, false, inp.modeId⟩
    else
      let newMode := if inp.decision = .allow_always then .bypassPermissions else inp.modeId
      let emitted := inp.decision = .allow_always
      if inp.decision = .allow_once ∨ inp.decision = .allow_always then
        ⟨inp.secondAttempt.stopReason, some (modeToRunnerOptions newMode true),
         decide emitted, newMode⟩
      else
        ⟨inp.firstAttempt.stopReason, none, decide emitted, newMode⟩
  else ⟨inp.firstAttempt.stopReason, none, false, inp.modeId⟩

/-! ## Lemmas about the line splitter -/

@[simp]
theorem splitNL_nil : splitNL [] = [[]] :=
  rfl

theorem splitNL_cons (c : Char) (rest : List Char) :
    splitNL (c :: rest) =
      if c = '\n' then [] :: splitNL rest else consHead c (splitNL rest) :=
  rfl

theorem consHead_ne_nil (c : Char) (xs : List (List Char)) : consHead c xs ≠ [] := by
  cases xs <;> simp [consHead]

theorem splitNL_ne_nil (s : List Char) : splitNL s ≠ [] := by
  induction s with
  | nil => simp
  | cons c rest _ =>
    rw [splitNL_cons]
    split
    · simp
    · exact consHead_ne_nil c _

theorem headD_cons_tail (l : List α) (d : α) (h : l ≠ []) : l.headD d :: l.tail = l := by
  cases l with
  | nil => exact absurd rfl h
  | cons x xs => rfl

theorem getLastD_indep (l : List α) (a b : α) (h : l ≠ []) : l.getLastD a = l.getLastD b := by
  cases l with
  | nil => exact absurd rfl h
  | cons x xs => rw [List.getLastD_cons, List.getLastD_cons]

theorem getLastD_append_ne :
    ∀ (xs ys : List α) (d : α), ys ≠ [] → (xs ++ ys).getLastD d = ys.getLastD d
  | [], _, _, _ => rfl
  | a :: xs, ys, d, h => by
    rw [List.cons_append, List.getLastD_cons, getLastD_append_ne xs ys a h,
      getLastD_indep ys a d h]

theorem getLastD_cons_mem : ∀ (xs : List α) (x d : α), (x :: xs).getLastD d ∈ x :: xs
  | [], x, d => by simp [List.getLastD_cons]
  | y :: ys, x, d => by
    rw [List.getLastD_cons]
    exact List.mem_cons_of_mem x (getLastD_cons_mem ys y x)

theorem splitNL_append (s t : List Char) :
    splitNL (s ++ t) =
      (splitNL s).dropLast ++
        ((splitNL s).getLastD [] ++ (splitNL t).headD []) :: (splitNL t).tail := by
  induction s with
  | nil =>
    simp only [List.nil_append, splitNL_nil, List.dropLast_single, List.getLastD_cons,
      List.getLastD_nil]
    exact (headD_cons_tail _ _ (splitNL_ne_nil t)).symm
  | cons c s' ih =>
    by_cases hc : c = '\n'
    · subst hc
      rw [List.cons_append, splitNL_cons, if_pos rfl, splitNL_cons, if_pos rfl, ih,
        List.dropLast_cons_of_ne_nil (splitNL_ne_nil s'), List.getLastD_cons,
        List.cons_append]
    · rw [List.cons_append, splitNL_cons, if_neg hc, splitNL_cons, if_neg hc, ih]
      rcases h0 : splitNL s' with _ | ⟨l0, ls⟩
      · exact absurd h0 (splitNL_ne_nil s')
      · cases ls with
        | nil => simp [consHead, List.getLastD_cons]
        | cons l1 ls' =>
          have hne : (l1 :: ls') ≠ ([] : List (List Char)) := by simp
          simp only [consHead, List.dropLast_cons_of_ne_nil hne, List.getLastD_cons,
            List.cons_append]

theorem splitNL_parts_no_newline (s : List Char) : ∀ l ∈ splitNL s, '\n' ∉ l := by
  induction s with
  | nil =>
    intro l hl
    simp at hl
    simp [hl]
  | cons c s' ih =>
    intro l hl
    rw [splitNL_cons] at hl
    by_cases hc : c = '\n'
    · rw [if_pos hc] at hl
      rcases List.mem_cons.mp hl with h | h
      · simp [h]
      · exact ih l h
    · rw [if_neg hc] at hl
      rcases h0 : splitNL s' with _ | ⟨l0, ls⟩
      · exact absurd h0 (splitNL_ne_nil s')
      · rw [h0] at hl
        simp only [consHead] at hl
        rcases List.mem_cons.mp hl with h | h
        · subst h
          intro hmem
          rcases List.mem_cons.mp hmem with h | h
          · exact hc h.symm
          · exact ih l0 (h0 ▸ List.mem_cons_self l0 ls) h
        · exact ih l (h0 ▸ List.mem_cons_of_mem l0 h)

theorem splitNL_of_no_newline (l : List Char) (h : '\n' ∉ l) : splitNL l = [l] := by
  induction l with
  | nil => rfl
  | cons c rest ih =>
    have hc : c ≠ '\n' := fun e => h (e ▸ List.mem_cons_self c rest)
    rw [splitNL_cons, if_neg hc, ih (fun m => h (List.mem_cons_of_mem c m))]
    rfl

/-! ## Lemmas about `mapInit` and `splitRN` -/

@[simp]
theorem mapInit_nil (f : α → α) : mapInit f [] = [] :=
  rfl

@[simp]
theorem mapInit_single (f : α → α) (x : α) : mapInit f [x] = [x] :=
  rfl

theorem mapInit_cons₂ (f : α → α) (x y : α) (xs : List α) :
    mapInit f (x :: y :: xs) = f x :: mapInit f (y :: xs) :=
  rfl

theorem mapInit_ne_nil (f : α → α) (l : List α) (h : l ≠ []) : mapInit f l ≠ [] := by
  match l with
  | [] => exact absurd rfl h
  | [x] => simp
  | x :: y :: xs => rw [mapInit_cons₂]; simp

theorem mapInit_append (f : α → α) :
    ∀ (xs ys : List α), ys ≠ [] → mapInit f (xs ++ ys) = xs.map f ++ mapInit f ys
  | [], ys, _ => by simp
  | x :: xs, ys, h => by
    obtain ⟨z, zs, hz⟩ := List.exists_cons_of_ne_nil
      (show xs ++ ys ≠ [] by simp [h])
    rw [List.cons_append, show (xs ++ ys : List α) = z :: zs from hz, mapInit_cons₂,
      ← hz, mapInit_append f xs ys h]
    simp

theorem dropLast_mapInit (f : α → α) : ∀ l : List α, (mapInit f l).dropLast = l.dropLast.map f
  | [] => rfl
  | [_] => rfl
  | x :: y :: xs => by
    rw [mapInit_cons₂, List.dropLast_cons_of_ne_nil (mapInit_ne_nil f _ (by simp)),
      List.dropLast_cons_of_ne_nil (by simp), dropLast_mapInit f (y :: xs), List.map_cons]

theorem getLastD_mapInit (f : α → α) : ∀ (l : List α) (d : α),
    (mapInit f l).getLastD d = l.getLastD d
  | [], _ => rfl
  | [_], _ => by simp [List.getLastD_cons]
  | x :: y :: xs, d => by
    rw [mapInit_cons₂, List.getLastD_cons, List.getLastD_cons,
      getLastD_indep _ (f x) d (mapInit_ne_nil f _ (by simp)),
      getLastD_indep _ x d (by simp)]
    exact getLastD_mapInit f (y :: xs) d

theorem splitRN_ne_nil (s : List Char) : splitRN s ≠ [] :=
  mapInit_ne_nil chopCR _ (splitNL_ne_nil s)

theorem splitRN_getLastD (s : List Char) :
    (splitRN s).getLastD [] = (splitNL s).getLastD [] :=
  getLastD_mapInit chopCR _ _

theorem splitRN_getLastD_no_newline (s : List Char) : '\n' ∉ (splitRN s).getLastD [] := by
  rw [splitRN_getLastD]
  rcases h0 : splitNL s with _ | ⟨l0, ls⟩
  · exact absurd h0 (splitNL_ne_nil s)
  · exact splitNL_parts_no_newline s _ (h0 ▸ getLastD_cons_mem ls l0 [])

theorem splitRN_singleton_of_no_newline (l : List Char) (h : '\n' ∉ l) : splitRN l = [l] := by
  rw [splitRN, splitNL_of_no_newline l h, mapInit_single]

theorem splitRN_append (s t : List Char) :
    splitRN (s ++ t) =
      (splitRN s).dropLast ++ splitRN ((splitRN s).getLastD [] ++ t) := by
  have hnn : '\n' ∉ (splitNL s).getLastD [] := by
    have h := splitRN_getLastD_no_newline s
    rwa [splitRN_getLastD] at h
  have hg : splitNL ((splitNL s).getLastD [] ++ t) =
      ((splitNL s).getLastD [] ++ (splitNL t).headD []) :: (splitNL t).tail := by
    rw [splitNL_append, splitNL_of_no_newline _ hnn]
    simp only [List.dropLast_single, List.nil_append, List.getLastD_cons, List.getLastD_nil]
  rw [splitRN, splitRN, splitRN, getLastD_mapInit chopCR (splitNL s) [], hg,
    dropLast_mapInit, splitNL_append s t, mapInit_append chopCR _ _ (by simp)]

/-! ## Lemmas about the buffered reader -/

theorem feedChunks_spec :
    ∀ (cs : List (List Char)) (L : List (List Char)) (b : List Char),
      splitRN b = [b] →
      feedChunks ⟨L, b⟩ cs =
        ⟨L ++ (splitRN (b ++ cs.flatten)).dropLast, (splitRN (b ++ cs.flatten)).getLastD []⟩
  | [], L, b, hb => by
    simp [feedChunks, hb]
  | c :: cs', L, b, hb => by
    have hstep : feedChunk ⟨L, b⟩ c =
        ⟨L ++ (splitRN (b ++ c)).dropLast, (splitRN (b ++ c)).getLastD []⟩ := rfl
    have hb' : splitRN ((splitRN (b ++ c)).getLastD []) = [(splitRN (b ++ c)).getLastD []] :=
      splitRN_singleton_of_no_newline _ (splitRN_getLastD_no_newline (b ++ c))
    show feedChunks (feedChunk ⟨L, b⟩ c) cs' = _
    rw [hstep, feedChunks_spec cs' _ _ hb']
    have hsplit : splitRN (b ++ (c :: cs').flatten) =
        (splitRN (b ++ c)).dropLast ++
          splitRN ((splitRN (b ++ c)).getLastD [] ++ cs'.flatten) := by
      rw [List.flatten_cons, ← List.append_assoc]
      exact splitRN_append (b ++ c) cs'.flatten
    rw [hsplit, List.dropLast_append_of_ne_nil _ (splitRN_ne_nil _), ← List.append_assoc,
      getLastD_append_ne _ _ _ (splitRN_ne_nil _)]

theorem map_chopCR_id (rs : List (List Char)) (h : ∀ r ∈ rs, '\r' ∉ r) :
    rs.map chopCR = rs := by
  induction rs with
  | nil => rfl
  | cons r rs' ih =>
    have hr : chopCR r = r := by
      rcases hg : r.getLast? with _ | c
      · simp [chopCR, hg]
      · have hc : c ∈ r := List.mem_of_mem_getLast? hg
        have : ¬(c = '\r') := fun e => h r (List.mem_cons_self r rs') (e ▸ hc)
        simp [chopCR, hg, this]
    rw [List.map_cons, hr, ih (fun x hx => h x (List.mem_cons_of_mem r hx))]

theorem splitNL_record (r w : List Char) (h : '\n' ∉ r) :
    splitNL (r ++ '\n' :: w) = r :: splitNL w := by
  induction r with
  | nil => simp [splitNL_cons]
  | cons c r' ih =>
    have hc : c ≠ '\n' := fun e => h (e ▸ List.mem_cons_self c r')
    rw [List.cons_append, splitNL_cons, if_neg hc,
      ih (fun m => h (List.mem_cons_of_mem c m))]
    rfl

theorem splitNL_joinNL (rs : List (List Char)) (h : ∀ r ∈ rs, '\n' ∉ r) :
    splitNL (joinNL rs) = rs ++ [[]] := by
  induction rs with
  | nil => simp [joinNL]
  | cons r rs' ih =>
    have hj : joinNL (r :: rs') = r ++ '\n' :: joinNL rs' := by
      simp [joinNL]
    rw [hj, splitNL_record r _ (h r (List.mem_cons_self r rs')),
      ih (fun x hx => h x (List.mem_cons_of_mem r hx))]
    rfl

theorem splitRN_joinNL (rs : List (List Char)) (h : ∀ r ∈ rs, '\n' ∉ r ∧ '\r' ∉ r) :
    splitRN (joinNL rs) = rs ++ [[]] := by
  rw [splitRN, splitNL_joinNL rs (fun r hr => (h r hr).1),
    mapInit_append chopCR rs [[]] (by simp), mapInit_single,
    map_chopCR_id rs (fun r hr => (h r hr).2)]

/-- Whatever the chunk boundaries, a chunk sequence concatenating to `N`
newline-terminated records is reassembled into exactly those `N` lines, with
an empty trailing buffer. -/
theorem readerLines_of_records (rs cs : List (List Char))
    (hcat : cs.flatten = joinNL rs)
    (h : ∀ r ∈ rs, '\n' ∉ r ∧ '\r' ∉ r) :
    readerLines cs = rs := by
  unfold readerLines
  rw [feedChunks_spec cs [] [] rfl]
  simp only [List.nil_append]
  rw [hcat, splitRN_joinNL rs h, List.dropLast_concat, List.getLastD_concat]
  simp [jsTrim]

theorem parseAll_length (parse : List Char → Option JsonVal) :
    ∀ (rs : List (List Char)) (es : List JsonVal),
      parseAll parse rs = some es → es.length = rs.length
  | [], es, hp => by
    simp [parseAll] at hp
    simp [← hp]
  | r :: rs', es, hp => by
    rw [parseAll] at hp
    rcases h1 : parse r with _ | e <;> rw [h1] at hp
    · exact absurd hp (by simp)
    · rcases h2 : parseAll parse rs' with _ | es' <;> rw [h2] at hp
      · exact absurd hp (by simp)
      · have := parseAll_length parse rs' es' h2
        simp at hp
        simp [← hp, this]

theorem processQueue_nil (parse : List Char → Option JsonVal) (h : σ → JsonVal → σ) (s : σ) :
    processQueue parse h s [] = .ok (s, []) :=
  rfl

theorem processQueue_cons (parse : List Char → Option JsonVal) (h : σ → JsonVal → σ) (s : σ)
    (l : List Char) (ls : List (List Char)) :
    processQueue parse h s (l :: ls) =
      if jsTrim l = [] then processQueue parse h s ls
      else
        match parse l with
        | none => .error l
        | some e =>
          match processQueue parse h (h s e) ls with
          | .ok (s2, es) => .ok (s2, e :: es)
          | .error bad => .error bad :=
  rfl

theorem processQueue_records (parse : List Char → Option JsonVal) (h : σ → JsonVal → σ) :
    ∀ (rs : List (List Char)) (es : List JsonVal) (s : σ),
      (∀ r ∈ rs, jsTrim r ≠ []) → parseAll parse rs = some es →
      processQueue parse h s rs = .ok (es.foldl h s, es)
  | [], es, s, _, hp => by
    have he : es = [] := by
      simpa [parseAll] using hp.symm
    subst he
    simp [processQueue_nil]
  | r :: rs', es, s, hnb, hp => by
    rw [parseAll] at hp
    rcases h1 : parse r with _ | e <;> rw [h1] at hp
    · exact absurd hp (by simp)
    · rcases h2 : parseAll parse rs' with _ | es' <;> rw [h2] at hp
      · exact absurd hp (by simp)
      · simp only [Option.some.injEq] at hp
        subst hp
        rw [processQueue_cons, if_neg (by simpa using hnb r (List.mem_cons_self r rs')), h1]
        dsimp only
        rw [processQueue_records parse h rs' es' (h s e)
          (fun x hx => hnb x (List.mem_cons_of_mem r hx)) h2]
        simp

/-! ## Claim theorems -/

/-- C1: for every sequence of stdout byte chunks that, concatenated, form `N`
newline-terminated JSON records, the stream reader hands the per-record
handler exactly the `N` parsed records, once each, in the original record
order, regardless of where the chunk boundaries fall; and — because line
processing is a sequential chain — the handler invocation for record `N+1`
starts from the state produced by the *completed* invocation for record `N`
(the final handler state is the left fold of the handler over the records). -/
theorem stream_reader_in_order_delivery {σ : Type} (parse : List Char → Option JsonVal)
    (h : σ → JsonVal → σ) (s0 : σ) (rs cs : List (List Char)) (es : List JsonVal)
    (hcat : cs.flatten = joinNL rs)
    (hrec : ∀ r ∈ rs, '\n' ∉ r ∧ '\r' ∉ r ∧ jsTrim r ≠ [])
    (hparse : parseAll parse rs = some es) :
    processQueue parse h s0 (readerLines cs) = .ok (es.foldl h s0, es) ∧
      es.length = rs.length := by
  have hrl := readerLines_of_records rs cs hcat (fun r hr => ⟨(hrec r hr).1, (hrec r hr).2.1⟩)
  rw [hrl]
  exact ⟨processQueue_records parse h rs es s0 (fun r hr => (hrec r hr).2.2) hparse,
    parseAll_length parse rs es hparse⟩

/-- Witness for C1 at a concrete input: two records `{"a":1}` and `{"b":2}`,
delivered in chunks that split the first record mid-way and pack the second
record's tail together with the first's terminator. -/
theorem stream_reader_in_order_delivery_witness :
    processQueue (fun l => if l.length = 0 then none else some (.str (String.mk l)))
        (fun (n : Nat) _ => n + 1) 0
        (readerLines [['a'], ['\n', 'b'], ['\n']]) =
      .ok (([JsonVal.str "a", JsonVal.str "b"]).foldl (fun n _ => n + 1) 0,
        [JsonVal.str "a", JsonVal.str "b"]) ∧
      ([JsonVal.str "a", JsonVal.str "b"] : List JsonVal).length =
        ([['a'], ['b']] : List (List Char)).length :=
  stream_reader_in_order_delivery
    (fun l => if l.length = 0 then none else some (.str (String.mk l)))
    (fun (n : Nat) _ => n + 1) 0 [['a'], ['b']] [['a'], ['\n', 'b'], ['\n']]
    [JsonVal.str "a", JsonVal.str "b"] (by decide) (by decide) rfl

/-! ## Lemmas linking `processQueue` to its declarative description -/

theorem processQueue_error_iff (parse : List Char → Option JsonVal) (h : σ → JsonVal → σ) :
    ∀ (L : List (List Char)) (s : σ) (l : List Char),
      processQueue parse h s L = .error l ↔ firstBadLine parse L = some l
  | [], s, l => by
    simp [processQueue_nil, firstBadLine]
  | l0 :: ls, s, l => by
    rw [processQueue_cons, firstBadLine]
    by_cases hb : jsTrim l0 = []
    · rw [if_pos hb, if_pos hb]
      exact processQueue_error_iff parse h ls s l
    · rw [if_neg hb, if_neg hb]
      rcases h1 : parse l0 with _ | e
      · simp
      · dsimp only
        rcases hq : processQueue parse h (h s e) ls with bad | ⟨s2, es⟩
        · have hf : firstBadLine parse ls = some bad :=
            (processQueue_error_iff parse h ls (h s e) bad).mp hq
          rw [hf]
          simp
        · have hf : firstBadLine parse ls = none := by
            rcases hx : firstBadLine parse ls with _ | x
            · rfl
            · have hcontra := (processQueue_error_iff parse h ls (h s e) x).mpr hx
              rw [hq] at hcontra
              exact absurd hcontra (by simp)
          rw [hf]
          simp

theorem processQueue_ok_of_clean (parse : List Char → Option JsonVal) (h : σ → JsonVal → σ) :
    ∀ (L : List (List Char)) (s : σ), firstBadLine parse L = none →
      processQueue parse h s L = .ok ((goodEvents parse L).foldl h s, goodEvents parse L)
  | [], s, _ => by simp [processQueue_nil, goodEvents]
  | l0 :: ls, s, hclean => by
    rw [processQueue_cons, goodEvents]
    rw [firstBadLine] at hclean
    by_cases hb : jsTrim l0 = []
    · rw [if_pos hb, if_pos hb]
      rw [if_pos hb] at hclean
      exact processQueue_ok_of_clean parse h ls s hclean
    · rw [if_neg hb, if_neg hb]
      rw [if_neg hb] at hclean
      rcases h1 : parse l0 with _ | e
      · rw [h1] at hclean
        exact absurd hclean (by simp)
      · rw [h1] at hclean
        dsimp only
        rw [processQueue_ok_of_clean parse h ls (h s e) hclean]
        simp

/-- C6: the reader run rejects in exactly two transport cases — (a) the first
non-blank queued line that fails to `JSON.parse` fails the whole run with
that line, and (b) when every line parses but no processed record has type
`"result"`, the run fails with the exit code and the ANSI-stripped, trimmed
stderr text; conversely, when a `result` record was observed the run resolves
with *all* records of the queued backlog — the trailing unterminated buffer
flushed as a final line included — and the last `result`-type record. -/
theorem reader_run_failure_modes {σ : Type} (parse : List Char → Option JsonVal)
    (h : σ → JsonVal → σ) (s0 : σ) (cs : List (List Char)) (stderrTxt : List Char)
    (code : Int) :
    (∀ l, readPromptStream parse h s0 cs stderrTxt code = .error (.parseError l) ↔
        firstBadLine parse (readerLines cs) = some l) ∧
    (firstBadLine parse (readerLines cs) = none →
      (((goodEvents parse (readerLines cs)).filter isResultEvent).getLast? = none →
          readPromptStream parse h s0 cs stderrTxt code =
            .error (.noResultEvent code (jsTrim (stripAnsi stderrTxt)))) ∧
      (∀ re, ((goodEvents parse (readerLines cs)).filter isResultEvent).getLast? = some re →
          readPromptStream parse h s0 cs stderrTxt code =
            .ok ⟨(goodEvents parse (readerLines cs)).foldl h s0,
                 goodEvents parse (readerLines cs), some re, stderrTxt, code⟩)) := by
  constructor
  · intro l
    rcases hq : processQueue parse h s0 (readerLines cs) with bad | ⟨s1, evs⟩
    · have hf : firstBadLine parse (readerLines cs) = some bad :=
        (processQueue_error_iff parse h (readerLines cs) s0 bad).mp hq
      rw [readPromptStream, hq, hf]
      simp [RunFailure.parseError.injEq]
    · have hf : firstBadLine parse (readerLines cs) = none := by
        rcases hx : firstBadLine parse (readerLines cs) with _ | x
        · rfl
        · have hcontra := (processQueue_error_iff parse h (readerLines cs) s0 x).mpr hx
          rw [hq] at hcontra
          exact absurd hcontra (by simp)
      rw [readPromptStream, hq, hf]
      dsimp only
      cases hg : (evs.filter isResultEvent).getLast? with
      | none => simp
      | some re => simp
  · intro hclean
    have hq := processQueue_ok_of_clean parse h (readerLines cs) s0 hclean
    constructor
    · intro hnone
      rw [readPromptStream, hq]
      dsimp only
      rw [hnone]
    · intro re hre
      rw [readPromptStream, hq]
      dsimp only
      rw [hre]

/-- Witness for C6 at concrete inputs: a run whose single record has type
`result` resolves with it; a run whose records never include a `result`
fails carrying the exit code and cleaned stderr; a run with an unparsable
line fails carrying that line. -/
theorem reader_run_failure_modes_witness :
    readPromptStream
        (fun l => if l = ['R'] then some (.obj [("type", JsonVal.str "result")])
          else if l = ['b'] then none else some .null)
        (fun (n : Nat) _ => n + 1) 0 [['R'], ['\n']] [] 0 =
      .ok ⟨1, [.obj [("type", JsonVal.str "result")]],
        some (.obj [("type", JsonVal.str "result")]), [], 0⟩ ∧
    readPromptStream
        (fun l => if l = ['R'] then some (.obj [("type", JsonVal.str "result")])
          else if l = ['b'] then none else some .null)
        (fun (n : Nat) _ => n + 1) 0 [['x', '\n']] ['e'] 2 =
      .error (.noResultEvent 2 ['e']) ∧
    readPromptStream
        (fun l => if l = ['R'] then some (.obj [("type", JsonVal.str "result")])
          else if l = ['b'] then none else some .null)
        (fun (n : Nat) _ => n + 1) 0 [['b'], ['\n']] [] 1 =
      .error (.parseError ['b']) := by
  refine ⟨?_, ?_, ?_⟩
  · exact ((reader_run_failure_modes
      (fun l => if l = ['R'] then some (.obj [("type", JsonVal.str "result")])
        else if l = ['b'] then none else some .null)
      (fun (n : Nat) _ => n + 1) 0 [['R'], ['\n']] [] 0).2 (by decide)).2
      (.obj [("type", JsonVal.str "result")]) rfl
  · have h := ((reader_run_failure_modes
      (fun l => if l = ['R'] then some (.obj [("type", JsonVal.str "result")])
        else if l = ['b'] then none else some .null)
      (fun (n : Nat) _ => n + 1) 0 [['x', '\n']] ['e'] 2).2 (by decide)).1 rfl
    have he : jsTrim (stripAnsi ['e']) = ['e'] := by decide
    rw [he] at h
    exact h
  · exact ((reader_run_failure_modes
      (fun l => if l = ['R'] then some (.obj [("type", JsonVal.str "result")])
        else if l = ['b'] then none else some .null)
      (fun (n : Nat) _ => n + 1) 0 [['b'], ['\n']] [] 1).1 ['b']).mpr (by decide)

/-! ## Lemmas about `markdownEscape` -/

theorem takeWhile_replicate_fence (n : Nat) (rest : List Char) :
    (List.replicate n bq ++ '\n' :: rest).takeWhile (fun c => c == bq) =
      List.replicate n bq := by
  induction n with
  | zero => simp [List.takeWhile_cons, bq]
  | succ k ih =>
    rw [List.replicate_succ, List.cons_append, List.takeWhile_cons]
    simp only [beq_self_eq_true, if_pos]
    rw [ih]

theorem foldl_fenceGrow_ge (ms : List Nat) : ∀ a : Nat, a ≤ ms.foldl fenceGrow a := by
  induction ms with
  | nil => intro a; exact Nat.le_refl a
  | cons m ms' ih =>
    intro a
    have h1 : a ≤ fenceGrow a m := by
      unfold fenceGrow
      split
      · omega
      · omega
    exact Nat.le_trans h1 (ih (fenceGrow a m))

theorem foldl_fenceGrow_gt (ms : List Nat) :
    ∀ (a m : Nat), m ∈ ms → m < ms.foldl fenceGrow a := by
  induction ms with
  | nil => intro a m hm; exact absurd hm (List.not_mem_nil m)
  | cons m0 ms' ih =>
    intro a m hm
    rcases List.mem_cons.mp hm with h | h
    · subst h
      have h1 : m < fenceGrow a m := by
        unfold fenceGrow
        split
        · omega
        · omega
      exact Nat.lt_of_lt_of_le h1 (foldl_fenceGrow_ge ms' (fenceGrow a m))
    · exact ih (fenceGrow a m0) m h

/-- C7 (amended): the opening fence produced by `markdownEscape` is a
backtick run of length at least 3, strictly longer than every *line-leading*
run of three or more backticks in the text (the matches of the source's
`/^```+/gm` scan). -/
theorem markdownEscape_fence_exceeds_line_runs (text : String) :
    3 ≤ ((markdownEscape text).toList.takeWhile (fun c => c == bq)).length ∧
    ∀ m ∈ lineStartTickRuns text.toList,
      m < ((markdownEscape text).toList.takeWhile (fun c => c == bq)).length := by
  have hshape : (markdownEscape text).toList.takeWhile (fun c => c == bq) =
      List.replicate ((lineStartTickRuns text.toList).foldl fenceGrow 3) bq := by
    show (markdownEscapeL text.toList).takeWhile (fun c => c == bq) = _
    unfold markdownEscapeL
    exact takeWhile_replicate_fence _ _
  rw [hshape, List.length_replicate]
  exact ⟨foldl_fenceGrow_ge _ 3, fun m hm => foldl_fenceGrow_gt _ 3 m hm⟩

/-- Witness for the amended C7: a text opening with a four-backtick run gets
a fence strictly longer than 4 (and at least 3). -/
theorem markdownEscape_fence_exceeds_line_runs_witness :
    3 ≤ ((markdownEscape "````x").toList.takeWhile (fun c => c == bq)).length ∧
    4 < ((markdownEscape "````x").toList.takeWhile (fun c => c == bq)).length :=
  ⟨(markdownEscape_fence_exceeds_line_runs "````x").1,
   (markdownEscape_fence_exceeds_line_runs "````x").2 4 (by decide)⟩

/-- Counterexample to C7 as stated: `"x`````"` contains a run of five
backticks (not at a line start), yet the produced fence is only three
backticks long — the `/^```+/gm` scan only considers line-leading runs, so
the fence is *not* strictly longer than the longest run occurring anywhere. -/
theorem markdownEscape_midline_run_counterexample :
    markdownEscape "x`````" = "```\nx`````\n```" ∧
    maxBacktickRun ("x`````".toList) = 5 ∧
    ¬ 5 < ((markdownEscape "x`````").toList.takeWhile (fun c => c == bq)).length := by
  refine ⟨by decide, by decide, by decide⟩

/-! ## Branch lemmas for the event mapper -/

theorem mapCursorEventToAcp_started (sid : String) (ev : JsonVal) (cache : ToolUseCache)
    (payload : CursorToolPayload)
    (hty : jsGetStr ev "type" = some "tool_call")
    (hsub : jsGetStr ev "subtype" = some "started")
    (hp : extractCursorToolPayload (jsGet ev "tool_call") = some payload) :
    mapCursorEventToAcp sid ev cache =
      (startedMapping sid (mapperToolCallId ev) payload,
       cacheInsert cache (mapperToolCallId ev) ⟨mapperToolCallId ev, payload⟩) := by
  simp [mapCursorEventToAcp, hty, hsub, hp]

theorem mapCursorEventToAcp_completed (sid : String) (ev : JsonVal) (cache : ToolUseCache)
    (payload : CursorToolPayload)
    (hty : jsGetStr ev "type" = some "tool_call")
    (hsub : jsGetStr ev "subtype" = some "completed")
    (hp : extractCursorToolPayload (jsGet ev "tool_call") = some payload) :
    mapCursorEventToAcp sid ev cache =
      (completedMapping sid (mapperToolCallId ev)
        ((cacheLookup cache (mapperToolCallId ev)).getD ⟨mapperToolCallId ev, payload⟩)
        payload.result,
       cacheErase cache (mapperToolCallId ev)) := by
  simp [mapCursorEventToAcp, hty, hsub, hp]

/-! ## C9: todo-to-plan mapping -/

/-- C9: every todo entry of a todo-update completion result maps to a plan
entry carrying the entry's content string (or the fallback), priority
`"medium"`, and the status given by the explicit mapping; the status mapping
sends both enumerated completed/in-progress spellings to `"completed"` /
`"in_progress"` and *everything else* (the pending spellings included) to
`"pending"`. -/
theorem plan_entries_from_todos (res s : JsonVal) (ts : List JsonVal)
    (hs : jsGetObj res "success" = some s)
    (ht : jsGet s "todos" = some (.arr ts))
    (hobj : ∀ t ∈ ts, jsIsObject t = true) :
    planEntriesFromCursorTodos (some res) =
      ts.map (fun t =>
        { content := (jsGetStr t "content").getD "Untitled task",
          status := mapTodoStatus ((jsGetStr t "status").getD ""),
          priority := "medium" }) ∧
    mapTodoStatus "TODO_STATUS_COMPLETED" = "completed" ∧
    mapTodoStatus "completed" = "completed" ∧
    mapTodoStatus "TODO_STATUS_IN_PROGRESS" = "in_progress" ∧
    mapTodoStatus "in_progress" = "in_progress" ∧
    (∀ st : String, st ≠ "TODO_STATUS_COMPLETED" → st ≠ "completed" →
      st ≠ "TODO_STATUS_IN_PROGRESS" → st ≠ "in_progress" →
      mapTodoStatus st = "pending") := by
  refine ⟨?_, rfl, rfl, rfl, rfl, ?_⟩
  · rw [planEntriesFromCursorTodos]
    rw [hs]
    dsimp only
    rw [ht]
    dsimp only
    rw [List.filter_eq_self.mpr hobj]
  · intro st h1 h2 h3 h4
    rw [mapTodoStatus, if_neg (by simp [h1, h2]), if_neg (by simp [h3, h4])]

/-- Witness for C9: `[{content:"Inspect repo", status:"TODO_STATUS_PENDING"}]`
maps to `[{content:"Inspect repo", status:"pending", priority:"medium"}]`,
and an arbitrary unknown status string maps to `"pending"`. -/
theorem plan_entries_from_todos_witness :
    planEntriesFromCursorTodos (some (.obj [("success", .obj [("todos", .arr
        [.obj [("content", JsonVal.str "Inspect repo"),
               ("status", JsonVal.str "TODO_STATUS_PENDING")]])])])) =
      [{ content := "Inspect repo", status := "pending", priority := "medium" }] ∧
    mapTodoStatus "somethingElse" = "pending" := by
  have h := plan_entries_from_todos
    (.obj [("success", .obj [("todos", .arr
      [.obj [("content", JsonVal.str "Inspect repo"),
             ("status", JsonVal.str "TODO_STATUS_PENDING")]])])])
    (.obj [("todos", .arr
      [.obj [("content", JsonVal.str "Inspect repo"),
             ("status", JsonVal.str "TODO_STATUS_PENDING")]])])
    [.obj [("content", JsonVal.str "Inspect repo"),
           ("status", JsonVal.str "TODO_STATUS_PENDING")]]
    rfl rfl (by decide)
  exact ⟨h.1, h.2.2.2.2.2 "somethingElse" (by decide) (by decide) (by decide) (by decide)⟩

/-! ## C10: sanitized tool-call identifiers -/

theorem replaceWsRunsAux_no_ws :
    ∀ (b : Bool) (l : List Char), ∀ c ∈ replaceWsRunsAux b l, isJsWs c = false
  | _, [], c, hc => absurd hc (List.not_mem_nil c)
  | b, c0 :: rest, c, hc => by
    rw [replaceWsRunsAux] at hc
    by_cases h0 : isJsWs c0
    · rw [if_pos h0] at hc
      rcases List.mem_append.mp hc with h | h
      · cases b with
        | true => exact absurd h (List.not_mem_nil c)
        | false =>
          have : c = '_' := by simpa using h
          subst this
          decide
      · exact replaceWsRunsAux_no_ws true rest c h
    · rw [if_neg h0] at hc
      rcases List.mem_cons.mp hc with h | h
      · subst h
        exact Bool.eq_false_iff.mpr h0
      · exact replaceWsRunsAux_no_ws false rest c h

theorem replaceWsRuns_ne_nil (l : List Char) (h : l ≠ []) : replaceWsRuns l ≠ [] := by
  rcases l with _ | ⟨c0, rest⟩
  · exact absurd rfl h
  · rw [replaceWsRuns, replaceWsRunsAux]
    by_cases h0 : isJsWs c0
    · rw [if_pos h0]
      simp
    · rw [if_neg h0]
      simp

theorem sanitizeToolCallId_ne_nil (raw : List Char) : sanitizeToolCallId raw ≠ [] := by
  rw [sanitizeToolCallId]
  by_cases h : jsTrim raw = []
  · rw [if_pos h]
    decide
  · rw [if_neg h]
    exact replaceWsRuns_ne_nil _ h

theorem sanitizeToolCallId_no_ws (raw : List Char) :
    ∀ c ∈ sanitizeToolCallId raw, isJsWs c = false := by
  rw [sanitizeToolCallId]
  by_cases h : jsTrim raw = []
  · rw [if_pos h]
    decide
  · rw [if_neg h]
    exact replaceWsRunsAux_no_ws false _

/-- C10: for every `tool_call` stream event, the `toolCallId` carried by any
notification the mapper emits is the event's sanitized `call_id`: non-empty,
free of whitespace, equal to the trimmed `call_id` with every whitespace run
collapsed to one underscore when the `call_id` is a string with non-blank
trim, and the literal `"tool-call"` when the `call_id` is absent, not a
string, empty, or whitespace-only. -/
theorem tool_call_id_sanitized (sid : String) (ev : JsonVal) (cache : ToolUseCache)
    (hty : jsGetStr ev "type" = some "tool_call") :
    mapperToolCallId ev ≠ [] ∧
    (∀ c ∈ mapperToolCallId ev, isJsWs c = false) ∧
    (∀ s, jsGetStr ev "call_id" = some s → jsTrim s.toList ≠ [] →
      mapperToolCallId ev = replaceWsRuns (jsTrim s.toList)) ∧
    (∀ s, jsGetStr ev "call_id" = some s → jsTrim s.toList = [] →
      mapperToolCallId ev = "tool-call".toList) ∧
    (jsGetStr ev "call_id" = none → mapperToolCallId ev = "tool-call".toList) ∧
    (∀ n ∈ (mapCursorEventToAcp sid ev cache).1.notifications, ∀ id,
      notifToolCallId n.update = some id → id = mapperToolCallId ev) := by
  refine ⟨sanitizeToolCallId_ne_nil _, sanitizeToolCallId_no_ws _, ?_, ?_, ?_, ?_⟩
  · intro s hcall htrim
    rw [mapperToolCallId, hcall]
    dsimp only
    by_cases hnil : s.toList = []
    · exact absurd (by rw [hnil]; rfl) htrim
    · rw [if_neg hnil, sanitizeToolCallId, if_neg htrim]
  · intro s hcall htrim
    rw [mapperToolCallId, hcall]
    dsimp only
    by_cases hnil : s.toList = []
    · rw [if_pos hnil]
      decide
    · rw [if_neg hnil, sanitizeToolCallId, if_pos htrim]
  · intro hcall
    rw [mapperToolCallId, hcall]
    decide
  · intro n hn id hid
    rcases hp : extractCursorToolPayload (jsGet ev "tool_call") with _ | payload
    · have hempty : (mapCursorEventToAcp sid ev cache).1.notifications = [] := by
        simp [mapCursorEventToAcp, hty, hp]
      rw [hempty] at hn
      exact absurd hn (List.not_mem_nil n)
    · by_cases hs1 : jsGetStr ev "subtype" = some "started"
      · rw [mapCursorEventToAcp_started sid ev cache payload hty hs1 hp] at hn
        simp only [startedMapping, List.mem_singleton] at hn
        subst hn
        simp only [notifToolCallId, Option.some.injEq] at hid
        exact hid.symm
      · by_cases hs2 : jsGetStr ev "subtype" = some "completed"
        · rw [mapCursorEventToAcp_completed sid ev cache payload hty hs2 hp] at hn
          simp only [completedMapping, List.mem_cons] at hn
          rcases hn with h | h
          · subst h
            simp only [notifToolCallId, Option.some.injEq] at hid
            exact hid.symm
          · split at h
            · rcases List.mem_singleton.mp h with rfl
              simp [notifToolCallId] at hid
            · exact absurd h (List.not_mem_nil n)
        · have hempty : (mapCursorEventToAcp sid ev cache).1.notifications = [] := by
            simp [mapCursorEventToAcp, hty, hp, hs1, hs2]
          rw [hempty] at hn
          exact absurd hn (List.not_mem_nil n)

/-- Witness for C10: a `tool_call` event whose `call_id` is `" a b "` gets
toolCallId `"a_b"`; one with a whitespace-only `call_id` gets `"tool-call"`. -/
theorem tool_call_id_sanitized_witness :
    mapperToolCallId (.obj [("type", JsonVal.str "tool_call"),
        ("call_id", JsonVal.str " a b ")]) = replaceWsRuns (jsTrim " a b ".toList) ∧
    mapperToolCallId (.obj [("type", JsonVal.str "tool_call"),
        ("call_id", JsonVal.str "  ")]) = "tool-call".toList ∧
    mapperToolCallId (.obj [("type", JsonVal.str "tool_call"),
        ("call_id", JsonVal.str " a b ")]) = "a_b".toList := by
  have h1 := (tool_call_id_sanitized "s"
    (.obj [("type", JsonVal.str "tool_call"), ("call_id", JsonVal.str " a b ")]) []
    rfl).2.2.1 " a b " rfl (by decide)
  have h2 := (tool_call_id_sanitized "s"
    (.obj [("type", JsonVal.str "tool_call"), ("call_id", JsonVal.str "  ")]) []
    rfl).2.2.2.1 "  " rfl (by decide)
  refine ⟨h1, h2, ?_⟩
  rw [h1]
  decide

/-! ## C3: rejection classification and round trip -/

/-- C3: a completed tool call's result is classified rejected iff it is an
object containing a nested `rejected` object (an `error` field alone does
not qualify); a rejected completion yields a `tool_call_update` with status
`"failed"` and a `rejectedToolCall` whose title is the one computed by the
tool-start classification function on the same tool name and arguments; a
non-rejected completion yields status `"completed"` and no
`rejectedToolCall`. -/
theorem rejected_tool_result_classification (sid : String) (ev : JsonVal)
    (cache : ToolUseCache) (payload : CursorToolPayload)
    (hty : jsGetStr ev "type" = some "tool_call")
    (hsub : jsGetStr ev "subtype" = some "completed")
    (hp : extractCursorToolPayload (jsGet ev "tool_call") = some payload) :
    (isRejectedToolResult payload.result = true ↔
      ∃ r rej, payload.result = some r ∧ jsIsObject r = true ∧
        jsGet r "rejected" = some rej ∧ jsIsObject rej = true) ∧
    (isRejectedToolResult payload.result = true →
      ((mapCursorEventToAcp sid ev cache).1.notifications.head?.map
        (fun n => (n.sessionId, notifToolCallId n.update, updateStatus n.update))) =
        some (sid, some (mapperToolCallId ev), some "failed") ∧
      (mapCursorEventToAcp sid ev cache).1.rejectedToolCall =
        some ⟨mapperToolCallId ev,
          (toolInfoFromCursorToolCall
            ((cacheLookup cache (mapperToolCallId ev)).getD
              ⟨mapperToolCallId ev, payload⟩).payload.toolName
            ((cacheLookup cache (mapperToolCallId ev)).getD
              ⟨mapperToolCallId ev, payload⟩).payload.args).title,
          ((cacheLookup cache (mapperToolCallId ev)).getD
            ⟨mapperToolCallId ev, payload⟩).payload.args⟩) ∧
    (isRejectedToolResult payload.result = false →
      ((mapCursorEventToAcp sid ev cache).1.notifications.head?.map
        (fun n => (n.sessionId, notifToolCallId n.update, updateStatus n.update))) =
        some (sid, some (mapperToolCallId ev), some "completed") ∧
      (mapCursorEventToAcp sid ev cache).1.rejectedToolCall = none) := by
  rw [mapCursorEventToAcp_completed sid ev cache payload hty hsub hp]
  refine ⟨?_, ?_, ?_⟩
  · constructor
    · intro h
      rcases hr : payload.result with _ | r
      · rw [hr] at h
        exact absurd h (by simp [isRejectedToolResult])
      · rw [hr] at h
        simp only [isRejectedToolResult] at h
        rcases hrej : jsGet r "rejected" with _ | rej
      
        · rw [hrej] at h
          simp at h
        · rw [hrej] at h
          rw [Bool.and_eq_true] at h
          exact ⟨r, rej, rfl, h.1, hrej, h.2⟩
    · rintro ⟨r, rej, hr, hro, hrej, hrejo⟩
      rw [hr]
      simp only [isRejectedToolResult, hrej]
      simp [hro, hrejo]
  · intro h
    constructor
    · simp [completedMapping, notifToolCallId, updateStatus, h]
    · simp only [completedMapping]
      rw [if_pos h]
  · intro h
    constructor
    · simp [completedMapping, notifToolCallId, updateStatus, h]
    · simp only [completedMapping]
      rw [if_neg (by simp [h])]

/-- Witness for C3: a completed `readToolCall` whose result holds a nested
`rejected` object maps to status `"failed"` with a `rejectedToolCall` titled
by the tool-start classification (`"Read f.txt"`), while a completion whose
result only holds an `error` object maps to `"completed"` with no
`rejectedToolCall`. -/
theorem rejected_tool_result_classification_witness :
    ((mapCursorEventToAcp "s"
        (.obj [("type", JsonVal.str "tool_call"), ("subtype", JsonVal.str "completed"),
          ("call_id", JsonVal.str "c1"),
          ("tool_call", .obj [("readToolCall", .obj
            [("args", .obj [("path", JsonVal.str "f.txt")]),
             ("result", .obj [("rejected", JsonVal.obj [])])])])])
        []).1.notifications.head?.map
      (fun n => (n.sessionId, notifToolCallId n.update, updateStatus n.update))) =
      some ("s", some "c1".toList, some "failed") ∧
    (mapCursorEventToAcp "s"
        (.obj [("type", JsonVal.str "tool_call"), ("subtype", JsonVal.str "completed"),
          ("call_id", JsonVal.str "c1"),
          ("tool_call", .obj [("readToolCall", .obj
            [("args", .obj [("path", JsonVal.str "f.txt")]),
             ("result", .obj [("rejected", JsonVal.obj [])])])])])
        []).1.rejectedToolCall =
      some ⟨"c1".toList, "Read f.txt", .obj [("path", JsonVal.str "f.txt")]⟩ ∧
    ((mapCursorEventToAcp "s"
        (.obj [("type", JsonVal.str "tool_call"), ("subtype", JsonVal.str "completed"),
          ("call_id", JsonVal.str "c2"),
          ("tool_call", .obj [("readToolCall", .obj
            [("args", .obj [("path", JsonVal.str "f.txt")]),
             ("result", .obj [("error", JsonVal.obj
               [("message", JsonVal.str "boom")])])])])])
        []).1.notifications.head?.map
      (fun n => (n.sessionId, notifToolCallId n.update, updateStatus n.update))) =
      some ("s", some "c2".toList, some "completed") ∧
    (mapCursorEventToAcp "s"
        (.obj [("type", JsonVal.str "tool_call"), ("subtype", JsonVal.str "completed"),
          ("call_id", JsonVal.str "c2"),
          ("tool_call", .obj [("readToolCall", .obj
            [("args", .obj [("path", JsonVal.str "f.txt")]),
             ("result", .obj [("error", JsonVal.obj
               [("message", JsonVal.str "boom")])])])])])
        []).1.rejectedToolCall = none := by
  have hR := (rejected_tool_result_classification "s"
    (.obj [("type", JsonVal.str "tool_call"), ("subtype", JsonVal.str "completed"),
      ("call_id", JsonVal.str "c1"),
      ("tool_call", .obj [("readToolCall", .obj
        [("args", .obj [("path", JsonVal.str "f.txt")]),
         ("result", .obj [("rejected", JsonVal.obj [])])])])])
    []
    { toolName := "readToolCall", args := .obj [("path", JsonVal.str "f.txt")],
      result := some (.obj [("rejected", JsonVal.obj [])]), rawKey := "readToolCall" }
    rfl rfl rfl).2.1 rfl
  have hE := (rejected_tool_result_classification "s"
    (.obj [("type", JsonVal.str "tool_call"), ("subtype", JsonVal.str "completed"),
      ("call_id", JsonVal.str "c2"),
      ("tool_call", .obj [("readToolCall", .obj
        [("args", .obj [("path", JsonVal.str "f.txt")]),
         ("result", .obj [("error", JsonVal.obj [("message", JsonVal.str "boom")])])])])])
    []
    { toolName := "readToolCall", args := .obj [("path", JsonVal.str "f.txt")],
      result := some (.obj [("error", JsonVal.obj [("message", JsonVal.str "boom")])]),
      rawKey := "readToolCall" }
    rfl rfl rfl).2.2 rfl
  exact ⟨hR.1, hR.2, hE.1, hE.2⟩

/-! ## C4: tool-use cache lifecycle -/

theorem cacheLookup_insert_self (cache : ToolUseCache) (k : List Char) (v : CachedToolUse) :
    cacheLookup (cacheInsert cache k v) k = some v := by
  simp [cacheLookup, cacheInsert, List.find?]

theorem cacheLookup_erase_self (cache : ToolUseCache) (k : List Char) :
    cacheLookup (cacheErase cache k) k = none := by
  rw [cacheLookup, cacheErase]
  induction cache with
  | nil => rfl
  | cons p rest ih =>
    by_cases hp : p.1 == k
    · simp only [List.filter_cons, hp]
      rw [if_neg (by simp)]
      exact ih
    · simp only [List.filter_cons]
      rw [if_pos (by simp [hp])]
      rw [List.find?]
      simp only [hp]
      exact ih

theorem cacheErase_of_lookup_none (cache : ToolUseCache) (k : List Char)
    (h : cacheLookup cache k = none) : cacheErase cache k = cache := by
  rw [cacheLookup] at h
  rw [cacheErase]
  induction cache with
  | nil => rfl
  | cons p rest ih =>
    rw [List.find?] at h
    by_cases hp : p.1 == k
    · rw [hp] at h
      simp at h
    · simp only [Bool.not_eq_true] at hp
      rw [hp] at h
      simp only [List.filter_cons, hp]
      rw [if_pos (by simp)]
      rw [ih h]

/-- C4: after a `started` event is mapped, the cache holds an entry for the
sanitized call id; mapping the matching `completed` event removes it; a
`completed` event with no prior cached entry behaves exactly as if a
synthetic entry built from the completion payload itself were cached — it
still produces a `tool_call_update` notification and still leaves no cache
entry for that call id. -/
theorem tool_use_cache_lifecycle (sid : String) (evS evC : JsonVal) (cache : ToolUseCache)
    (pS pC : CursorToolPayload)
    (hS1 : jsGetStr evS "type" = some "tool_call")
    (hS2 : jsGetStr evS "subtype" = some "started")
    (hSp : extractCursorToolPayload (jsGet evS "tool_call") = some pS)
    (hC1 : jsGetStr evC "type" = some "tool_call")
    (hC2 : jsGetStr evC "subtype" = some "completed")
    (hCp : extractCursorToolPayload (jsGet evC "tool_call") = some pC)
    (hid : mapperToolCallId evC = mapperToolCallId evS) :
    cacheLookup (mapCursorEventToAcp sid evS cache).2 (mapperToolCallId evS) =
      some ⟨mapperToolCallId evS, pS⟩ ∧
    cacheLookup (mapCursorEventToAcp sid evC (mapCursorEventToAcp sid evS cache).2).2
      (mapperToolCallId evS) = none ∧
    (cacheLookup cache (mapperToolCallId evS) = none →
      mapCursorEventToAcp sid evC cache =
        (completedMapping sid (mapperToolCallId evS)
          ⟨mapperToolCallId evS, pC⟩ pC.result,
         cacheErase cache (mapperToolCallId evS)) ∧
      ((mapCursorEventToAcp sid evC cache).1.notifications.head?.map
        (fun n => (n.sessionId, notifToolCallId n.update, updateStatus n.update))) =
        some (sid, some (mapperToolCallId evS),
          some (if isRejectedToolResult pC.result then "failed" else "completed")) ∧
      cacheLookup (mapCursorEventToAcp sid evC cache).2 (mapperToolCallId evS) = none) := by
  refine ⟨?_, ?_, ?_⟩
  · rw [mapCursorEventToAcp_started sid evS cache pS hS1 hS2 hSp]
    exact cacheLookup_insert_self cache (mapperToolCallId evS) _
  · rw [mapCursorEventToAcp_completed sid evC _ pC hC1 hC2 hCp, hid]
    exact cacheLookup_erase_self _ _
  · intro hnone
    have hmap := mapCursorEventToAcp_completed sid evC cache pC hC1 hC2 hCp
    rw [hid, hnone] at hmap
    refine ⟨hmap, ?_, ?_⟩
    · rw [hmap]
      by_cases hrej : isRejectedToolResult pC.result
      · simp [completedMapping, notifToolCallId, updateStatus, hrej]
      · simp [completedMapping, notifToolCallId, updateStatus, hrej]
    · rw [hmap]
      exact cacheLookup_erase_self cache (mapperToolCallId evS)

/-- Witness for C4: a `started`/`completed` pair with call id `"c9"` for a
`writeToolCall`; the cache holds the entry after `started` and not after
`completed`, and a `completed` with an empty cache still yields a
`tool_call_update` for `"c9"` while leaving the cache empty. -/
theorem tool_use_cache_lifecycle_witness :
    cacheLookup (mapCursorEventToAcp "s"
        (.obj [("type", JsonVal.str "tool_call"), ("subtype", JsonVal.str "started"),
          ("call_id", JsonVal.str "c9"),
          ("tool_call", .obj [("writeToolCall", .obj
            [("args", .obj [("path", JsonVal.str "g.txt")])])])])
        []).2 "c9".toList =
      some ⟨"c9".toList,
        { toolName := "writeToolCall", args := .obj [("path", JsonVal.str "g.txt")],
          result := none, rawKey := "writeToolCall" }⟩ ∧
    cacheLookup (mapCursorEventToAcp "s"
        (.obj [("type", JsonVal.str "tool_call"), ("subtype", JsonVal.str "completed"),
          ("call_id", JsonVal.str "c9"),
          ("tool_call", .obj [("writeToolCall", .obj
            [("args", .obj [("path", JsonVal.str "g.txt")]),
             ("result", .obj [("success", JsonVal.obj
               [("content", JsonVal.str "ok")])])])])])
        (mapCursorEventToAcp "s"
          (.obj [("type", JsonVal.str "tool_call"), ("subtype", JsonVal.str "started"),
            ("call_id", JsonVal.str "c9"),
            ("tool_call", .obj [("writeToolCall", .obj
              [("args", .obj [("path", JsonVal.str "g.txt")])])])])
          []).2).2 "c9".toList = none ∧
    ((mapCursorEventToAcp "s"
        (.obj [("type", JsonVal.str "tool_call"), ("subtype", JsonVal.str "completed"),
          ("call_id", JsonVal.str "c9"),
          ("tool_call", .obj [("writeToolCall", .obj
            [("args", .obj [("path", JsonVal.str "g.txt")]),
             ("result", .obj [("success", JsonVal.obj
               [("content", JsonVal.str "ok")])])])])])
        []).1.notifications.head?.map
      (fun n => (n.sessionId, notifToolCallId n.update, updateStatus n.update))) =
      some ("s", some "c9".toList, some "completed") ∧
    cacheLookup (mapCursorEventToAcp "s"
        (.obj [("type", JsonVal.str "tool_call"), ("subtype", JsonVal.str "completed"),
          ("call_id", JsonVal.str "c9"),
          ("tool_call", .obj [("writeToolCall", .obj
            [("args", .obj [("path", JsonVal.str "g.txt")]),
             ("result", .obj [("success", JsonVal.obj
               [("content", JsonVal.str "ok")])])])])])
        []).2 "c9".toList = none := by
  have h := tool_use_cache_lifecycle "s"
    (.obj [("type", JsonVal.str "tool_call"), ("subtype", JsonVal.str "started"),
      ("call_id", JsonVal.str "c9"),
      ("tool_call", .obj [("writeToolCall", .obj
        [("args", .obj [("path", JsonVal.str "g.txt")])])])])
    (.obj [("type", JsonVal.str "tool_call"), ("subtype", JsonVal.str "completed"),
      ("call_id", JsonVal.str "c9"),
      ("tool_call", .obj [("writeToolCall", .obj
        [("args", .obj [("path", JsonVal.str "g.txt")]),
         ("result", .obj [("success", JsonVal.obj [("content", JsonVal.str "ok")])])])])])
    []
    { toolName := "writeToolCall", args := .obj [("path", JsonVal.str "g.txt")],
      result := none, rawKey := "writeToolCall" }
    { toolName := "writeToolCall", args := .obj [("path", JsonVal.str "g.txt")],
      result := some (.obj [("success", JsonVal.obj [("content", JsonVal.str "ok")])]),
      rawKey := "writeToolCall" }
    rfl rfl rfl rfl rfl rfl rfl
  have h3 := h.2.2 rfl
  exact ⟨h.1, h.2.1, h3.2.1, h3.2.2⟩

/-! ## C8: shell completions — raw output vs prefixed display text -/

theorem joinParts_pos :
    ∀ (p : String) (ps : List String), 0 < p.length → 0 < (joinParts (p :: ps)).length
  | p, [], hp => hp
  | p, q :: ps, hp => by
    rw [joinParts]
    simp [String.length_append]
    omega

theorem firstNonemptyStrProp_pos (v : JsonVal) :
    ∀ (ks : List String) (t : String), firstNonemptyStrProp v ks = some t → 0 < t.length
  | [], t, h => absurd h (by simp [firstNonemptyStrProp])
  | k :: ks, t, h => by
    rw [firstNonemptyStrProp] at h
    rcases hg : jsGetStr v k with _ | s
    · rw [hg] at h
      exact firstNonemptyStrProp_pos v ks t h
    · rw [hg] at h
      dsimp only at h
      by_cases hs : s.length > 0
      · rw [if_pos hs] at h
        cases h
        exact hs
      · rw [if_neg hs] at h
        exact firstNonemptyStrProp_pos v ks t h

theorem objTextProps_pos (v : JsonVal) (t : String) (h : objTextProps v = some t) :
    0 < t.length := by
  rw [objTextProps] at h
  split at h
  · exact firstNonemptyStrProp_pos v _ t h
  · exact absurd h (by simp)

theorem extractText_pos :
    ∀ (v : Option JsonVal) (t : String), extractText v = some t → 0 < t.length := by
  intro v t h
  match v with
  | none => exact absurd h (by simp [extractText])
  | some (.str s) =>
    have h : (if s.length > 0 then some s else none) = some t := h
    by_cases hs : s.length > 0
    · rw [if_pos hs] at h
      cases h
      exact hs
    · rw [if_neg hs] at h
      exact absurd h (by simp)
  | some (.arr xs) =>
    have h :
        (if ((xs.filterMap extractTextCandidate).filter (fun s => s.length > 0)).length > 0
          then some (joinParts ((xs.filterMap extractTextCandidate).filter
            (fun s => s.length > 0)))
          else objTextProps (.arr xs)) = some t := h
    set parts := (xs.filterMap extractTextCandidate).filter (fun s => s.length > 0) with hparts
    by_cases hlen : parts.length > 0
    · rw [if_pos hlen] at h
      rcases hp : parts with _ | ⟨p, ps⟩
      · rw [hp] at hlen
        simp at hlen
      · have hpp : 0 < p.length := by
          have : p ∈ parts := by
            rw [hp]
            exact List.mem_cons_self p ps
          have := List.of_mem_filter this
          simpa using this
        rw [hp] at h
        cases h
        exact joinParts_pos p ps hpp
    · rw [if_neg hlen] at h
      exact objTextProps_pos _ t h
  | some .null => exact objTextProps_pos _ t h
  | some (.bool b) => exact objTextProps_pos _ t h
  | some (.num n) => exact objTextProps_pos _ t h
  | some (.obj fs) => exact objTextProps_pos _ t h

theorem firstKeyExtract_pos (record : JsonVal) :
    ∀ (ks : List String) (t : String), firstKeyExtract record ks = some t → 0 < t.length
  | [], t, h => absurd h (by simp [firstKeyExtract])
  | k :: ks, t, h => by
    rw [firstKeyExtract] at h
    rcases hg : extractText (jsGet record k) with _ | s
    · rw [hg] at h
      exact firstKeyExtract_pos record ks t h
    · rw [hg] at h
      cases h
      exact extractText_pos _ _ hg

theorem extractTextFromRecord_pos (record : JsonVal) (t : String)
    (h : extractTextFromRecord record = some t) : 0 < t.length := by
  rw [extractTextFromRecord] at h
  rcases h1 : extractText (jsGet record "interleavedOutput") with _ | s
  · rw [h1] at h
    rcases h2 : extractText (jsGet record "stdout") with _ | o <;>
      rcases h3 : extractText (jsGet record "stderr") with _ | e <;>
        rw [h2, h3] at h
    · exact firstKeyExtract_pos record _ t h
    · cases h
      exact extractText_pos _ _ h3
    · cases h
      exact extractText_pos _ _ h2
    · cases h
      have := extractText_pos _ _ h2
      simp [String.length_append]
      omega
  · rw [h1] at h
    cases h
    exact extractText_pos _ _ h1

theorem extractToolResultOutputText_pos (result : Option JsonVal) (t : String)
    (h : extractToolResultOutputText result = some t) : 0 < t.length := by
  rcases result with _ | r
  · exact absurd h (by simp [extractToolResultOutputText])
  · rw [extractToolResultOutputText] at h
    rcases h1 : (match jsGetObj r "success" with
      | some s => extractTextFromRecord s
      | none => none) with _ | t1
    · rw [h1] at h
      rcases h2 : (match jsGetObj r "error" with
        | some e => extractTextFromRecord e
        | none => none) with _ | t2
      · rw [h2] at h
        rcases h3 : (match jsGetObj r "rejected" with
          | some rej => extractTextFromRecord rej
          | none => none) with _ | t3
        · rw [h3] at h
          simp only [Option.or] at h
          exact extractTextFromRecord_pos r t h
        · rw [h3] at h
          simp only [Option.or] at h
          cases h
          rcases hro : jsGetObj r "rejected" with _ | rej
          · rw [hro] at h3
            exact absurd h3 (by simp)
          · rw [hro] at h3
            exact extractTextFromRecord_pos rej t h3
      · rw [h2] at h
        simp only [Option.or] at h
        cases h
        rcases hro : jsGetObj r "error" with _ | e
        · rw [hro] at h2
          exact absurd h2 (by simp)
        · rw [hro] at h2
          exact extractTextFromRecord_pos e t h2
    · rw [h1] at h
      simp only [Option.or] at h
      cases h
      rcases hro : jsGetObj r "success" with _ | s
      · rw [hro] at h1
        exact absurd h1 (by simp)
      · rw [hro] at h1
        exact extractTextFromRecord_pos s t h1

theorem append_ne_empty_right (a b : String) (hb : 0 < b.length) : a ++ b ≠ "" := by
  intro e
  have h := congrArg String.length e
  rw [String.length_append] at h
  have h0 : ("" : String).length = 0 := rfl
  rw [h0] at h
  omega

theorem append_ne_empty_left (a b : String) (ha : 0 < a.length) : a ++ b ≠ "" := by
  intro e
  have h := congrArg String.length e
  rw [String.length_append] at h
  have h0 : ("" : String).length = 0 := rfl
  rw [h0] at h
  omega

/-- The prefixed shell display text decomposes as an exit-code/signal prefix
followed by the raw text, with a non-empty prefix exactly when a numeric
exit code or a non-empty signal is present in the result's `success`
object. -/
theorem formatShellToolResponse_pfx (result : Option JsonVal) (outputText : Option String) :
    ∃ pfx, formatShellToolResponse result outputText =
        pfx ++ outputText.getD "Command completed with no output." ∧
      (pfx = "" ↔ shellExitCode result = none ∧ shellSignal result = none) := by
  rcases hc : shellExitCode result with _ | n <;>
    rcases hs : shellSignal result with _ | sg
  · refine ⟨"", ?_, by simp [hc, hs]⟩
    simp [formatShellToolResponse, hc, hs]
  · refine ⟨"Signal `" ++ sg ++ "`. " ++ "Final output:\n\n", ?_, ?_⟩
    · simp only [formatShellToolResponse, hc, hs]
    · constructor
      · intro e
        exact absurd e (append_ne_empty_right _ "Final output:\n\n"
          (by rw [show ("Final output:\n\n" : String).length = 15 from rfl]; omega))
      · rintro ⟨-, h2⟩
        exact absurd h2 (by simp)
  · refine ⟨"Exited with code " ++ toString n ++ "." ++ "Final output:\n\n", ?_, ?_⟩
    · simp only [formatShellToolResponse, hc, hs]
    · constructor
      · intro e
        exact absurd e (append_ne_empty_right _ "Final output:\n\n"
          (by rw [show ("Final output:\n\n" : String).length = 15 from rfl]; omega))
      · rintro ⟨h2, -⟩
        exact absurd h2 (by simp)
  · refine ⟨"Exited with code " ++ toString n ++ "." ++ " " ++ "Signal `" ++ sg ++ "`. " ++
      "Final output:\n\n", ?_, ?_⟩
    · simp only [formatShellToolResponse, hc, hs]
    · constructor
      · intro e
        exact absurd e (append_ne_empty_right _ "Final output:\n\n"
          (by rw [show ("Final output:\n\n" : String).length = 15 from rfl]; omega))
      · rintro ⟨h2, -⟩
        exact absurd h2 (by simp)

theorem formatShellToolResponse_pos (result : Option JsonVal) :
    0 < (formatShellToolResponse result (extractToolResultOutputText result)).length := by
  obtain ⟨pfx, heq, -⟩ := formatShellToolResponse_pfx result (extractToolResultOutputText result)
  rw [heq, String.length_append]
  have htext : 0 < ((extractToolResultOutputText result).getD
      "Command completed with no output.").length := by
    rcases hx : extractToolResultOutputText result with _ | t
    · rw [show (Option.getD none "Command completed with no output.") =
        "Command completed with no output." from rfl]
      rw [show ("Command completed with no output." : String).length = 33 from rfl]
      omega
    · rw [show (Option.getD (some t) "Command completed with no output.") = t from rfl]
      exact extractToolResultOutputText_pos result t hx
  omega

/-- C8: for a shell-tool completion, the structured `rawOutput` field of the
`tool_call_update` is the raw extracted output text — never the
exit-code/signal-prefixed version — while the prefixed summary appears only
in the auxiliary `_meta.claudeCode.toolResponse` display text, whose prefix
is non-empty exactly when the result's `success` object carries a numeric
exit code and/or a non-empty signal name. -/
theorem shell_raw_output_unprefixed (sid : String) (ev : JsonVal) (cache : ToolUseCache)
    (payload : CursorToolPayload)
    (hty : jsGetStr ev "type" = some "tool_call")
    (hsub : jsGetStr ev "subtype" = some "completed")
    (hp : extractCursorToolPayload (jsGet ev "tool_call") = some payload)
    (hshell : ((cacheLookup cache (mapperToolCallId ev)).getD
      ⟨mapperToolCallId ev, payload⟩).payload.toolName = "shellToolCall") :
    ((mapCursorEventToAcp sid ev cache).1.notifications.head?.map
      (fun n => (updateRawOutput n.update, updateMetaToolResponse n.update))) =
      some (some (.text ((extractToolResultOutputText payload.result).getD
          "Command completed with no output.")),
        some (formatShellToolResponse payload.result
          (extractToolResultOutputText payload.result))) ∧
    (∃ pfx, formatShellToolResponse payload.result
        (extractToolResultOutputText payload.result) =
        pfx ++ (extractToolResultOutputText payload.result).getD
          "Command completed with no output." ∧
      (pfx = "" ↔ shellExitCode payload.result = none ∧
        shellSignal payload.result = none)) := by
  constructor
  · rw [mapCursorEventToAcp_completed sid ev cache payload hty hsub hp]
    have hpos := formatShellToolResponse_pos payload.result
    simp [completedMapping, updateRawOutput, updateMetaToolResponse, hshell, hpos]
  · exact formatShellToolResponse_pfx payload.result (extractToolResultOutputText payload.result)

/-- Witness for C8: a completed shell call exiting with code 0 and stdout
`"out"` reports rawOutput `"out"` while only the display metadata carries
the `Exited with code 0.` prefix. -/
theorem shell_raw_output_unprefixed_witness :
    ((mapCursorEventToAcp "s"
        (.obj [("type", JsonVal.str "tool_call"), ("subtype", JsonVal.str "completed"),
          ("call_id", JsonVal.str "c3"),
          ("tool_call", .obj [("shellToolCall", .obj
            [("args", .obj [("command", JsonVal.str "ls")]),
             ("result", .obj [("success", JsonVal.obj
               [("exitCode", JsonVal.num 0), ("stdout", JsonVal.str "out")])])])])])
        []).1.notifications.head?.map
      (fun n => (updateRawOutput n.update, updateMetaToolResponse n.update))) =
      some (some (.text "out"), some "Exited with code 0.Final output:\n\nout") ∧
    ∃ pfx, ("Exited with code 0.Final output:\n\nout" : String) = pfx ++ "out" ∧ ¬pfx = "" := by
  have h := shell_raw_output_unprefixed "s"
    (.obj [("type", JsonVal.str "tool_call"), ("subtype", JsonVal.str "completed"),
      ("call_id", JsonVal.str "c3"),
      ("tool_call", .obj [("shellToolCall", .obj
        [("args", .obj [("command", JsonVal.str "ls")]),
         ("result", .obj [("success", JsonVal.obj
           [("exitCode", JsonVal.num 0), ("stdout", JsonVal.str "out")])])])])])
    []
    { toolName := "shellToolCall", args := .obj [("command", JsonVal.str "ls")],
      result := some (.obj [("success", JsonVal.obj
        [("exitCode", JsonVal.num 0), ("stdout", JsonVal.str "out")])]),
      rawKey := "shellToolCall" }
    rfl rfl rfl rfl
  refine ⟨h.1, ?_⟩
  obtain ⟨pfx, he, hiff⟩ := h.2
  refine ⟨pfx, he, ?_⟩
  intro e
  exact absurd (hiff.mp e).1 (by decide)

/-! ## C2 and C5: the prompt-retry protocol -/

/-- C2: when the first attempt ends normally with at least one rejected tool
call in mode `default` or `acceptEdits` and no cancellation intervenes, an
`allow_once` or `allow_always` decision starts exactly one retry attempt
with the force flag set (and no mode flag) and returns that attempt's
outcome unchanged — the model's trace has a single retry slot, so no third
attempt can occur regardless of the second attempt's own rejected calls —
while a `reject` decision starts no retry and returns the first attempt's
outcome unchanged. -/
theorem retry_protocol (inp : PromptFlowInput)
    (h1 : inp.firstAttempt.stopReason = .end_turn)
    (h2 : inp.modeId = .default ∨ inp.modeId = .acceptEdits)
    (h3 : 0 < inp.firstAttempt.rejectedToolCalls.length)
    (h4 : inp.cancelledAfterFirst = false)
    (h5 : inp.cancelledAfterDecision = false) :
    ((inp.decision = .allow_once ∨ inp.decision = .allow_always) →
      (promptFlow inp).retryRunnerOptions = some ⟨none, true⟩ ∧
      (promptFlow inp).stopReason = inp.secondAttempt.stopReason) ∧
    (inp.decision = .reject →
      (promptFlow inp).retryRunnerOptions = none ∧
      (promptFlow inp).stopReason = inp.firstAttempt.stopReason) := by
  have hA : ¬(inp.firstAttempt.stopReason = .cancelled ∨ inp.cancelledAfterFirst = true) := by
    rw [h1, h4]
    simp
  have hB : inp.firstAttempt.stopReason = .end_turn ∧
      (inp.modeId = .default ∨ inp.modeId = .acceptEdits) ∧
      0 < inp.firstAttempt.rejectedToolCalls.length := ⟨h1, h2, h3⟩
  rw [promptFlow, if_neg hA, if_pos hB, if_neg (by rw [h5]; simp)]
  constructor
  · intro hd
    rw [if_pos hd]
    exact ⟨by rw [modeToRunnerOptions.eq_def, if_pos rfl], rfl⟩
  · intro hd
    rw [if_neg (by rw [hd]; simp)]
    exact ⟨rfl, rfl⟩

/-- Witness for C2: with a rejected first attempt in `default` mode,
`allow_once` runs one forced retry and returns its outcome, and `reject`
runs none and returns the first attempt's outcome. -/
theorem retry_protocol_witness :
    ((promptFlow ⟨.default, ⟨.end_turn, [⟨['i'], "t", .obj []⟩]⟩, false, .allow_once, false,
        ⟨.max_turn_requests, []⟩⟩).retryRunnerOptions = some ⟨none, true⟩ ∧
      (promptFlow ⟨.default, ⟨.end_turn, [⟨['i'], "t", .obj []⟩]⟩, false, .allow_once, false,
        ⟨.max_turn_requests, []⟩⟩).stopReason = .max_turn_requests) ∧
    ((promptFlow ⟨.default, ⟨.end_turn, [⟨['i'], "t", .obj []⟩]⟩, false, .reject, false,
        ⟨.max_turn_requests, []⟩⟩).retryRunnerOptions = none ∧
      (promptFlow ⟨.default, ⟨.end_turn, [⟨['i'], "t", .obj []⟩]⟩, false, .reject, false,
        ⟨.max_turn_requests, []⟩⟩).stopReason = .end_turn) :=
  ⟨(retry_protocol ⟨.default, ⟨.end_turn, [⟨['i'], "t", .obj []⟩]⟩, false, .allow_once, false,
      ⟨.max_turn_requests, []⟩⟩ rfl (Or.inl rfl) (by simp) rfl rfl).1 (Or.inl rfl),
   (retry_protocol ⟨.default, ⟨.end_turn, [⟨['i'], "t", .obj []⟩]⟩, false, .reject, false,
      ⟨.max_turn_requests, []⟩⟩ rfl (Or.inl rfl) (by simp) rfl rfl).2 rfl⟩

/-- C5: if the session's cancelled flag is set by the time the pending
permission decision resolves, the flow returns a cancelled outcome, starts
no retry, emits no mode-change notification, and leaves the session mode
unchanged (in particular not `bypassPermissions`) — even when the decision
is `allow_always`. -/
theorem cancellation_precedence (inp : PromptFlowInput)
    (h1 : inp.firstAttempt.stopReason = .end_turn)
    (h2 : inp.modeId = .default ∨ inp.modeId = .acceptEdits)
    (h3 : 0 < inp.firstAttempt.rejectedToolCalls.length)
    (h4 : inp.cancelledAfterFirst = false)
    (h5 : inp.cancelledAfterDecision = true) :
    promptFlow inp = ⟨.cancelled, none, false, inp.modeId⟩ ∧
    (promptFlow inp).finalModeId ≠ .bypassPermissions := by
  have hA : ¬(inp.firstAttempt.stopReason = .cancelled ∨ inp.cancelledAfterFirst = true) := by
    rw [h1, h4]
    simp
  have hB : inp.firstAttempt.stopReason = .end_turn ∧
      (inp.modeId = .default ∨ inp.modeId = .acceptEdits) ∧
      0 < inp.firstAttempt.rejectedToolCalls.length := ⟨h1, h2, h3⟩
  have heq : promptFlow inp = ⟨.cancelled, none, false, inp.modeId⟩ := by
    rw [promptFlow, if_neg hA, if_pos hB, if_pos h5]
  refine ⟨heq, ?_⟩
  rw [heq]
  rcases h2 with h | h <;> rw [h] <;> simp

/-- Witness for C5: with the cancelled flag observed set when an
`allow_always` decision resolves, the flow returns cancelled with no retry,
no mode-change notification, and the mode left at `default`. -/
theorem cancellation_precedence_witness :
    promptFlow ⟨.default, ⟨.end_turn, [⟨['i'], "t", .obj []⟩]⟩, false, .allow_always, true,
      ⟨.end_turn, []⟩⟩ = ⟨.cancelled, none, false, .default⟩ :=
  (cancellation_precedence ⟨.default, ⟨.end_turn, [⟨['i'], "t", .obj []⟩]⟩, false,
    .allow_always, true, ⟨.end_turn, []⟩⟩ rfl (Or.inl rfl) (by simp) rfl rfl).1
